import Mathlib

/-!
Verification of the coverage-report generator in src/create-markdown.js.

The script is embedded shallowly:

* JavaScript strings are lists of characters (abbrev Str below).  All string
  operations used by the script (split on a separator, joining, prefix tests,
  first-occurrence replacement) are defined here from scratch so that they can
  be reasoned about by induction.
* JSON-like values (the coverage summary, the divided summary, tree entries)
  are a mutually inductive type JVal / JElems / JFields mirroring JavaScript
  objects (insertion-ordered fields), arrays and primitives.  Property reads
  on non-objects yield none (undefined); property writes on primitives are
  silent no-ops, as in non-strict-mode JavaScript.  Reading a property of
  undefined, or calling .push on a non-array, is a TypeError, which the
  embedding models by returning none from the affected operation.
* JavaScript floating-point numbers are modelled as rationals; Math.round is
  half-up rounding and Number.EPSILON is 2⁻⁵². Coercion of non-numeric values
  inside >= comparisons is not modelled (such comparisons yield false here);
  every percentage ever compared by the script is produced as a number.
* The readline interface delivers the trace one line at a time, never
  containing a newline character, so the /m multiline flags on the script's
  anchored regexes are inert and the regexes are modelled as whole-line
  matches.
* for-in enumeration is modelled for objects (insertion order).  The script
  never enumerates arrays or strings on its real data flow (for-in over a
  string would in fact make sumCoverage recurse forever), so non-objects
  enumerate as empty here.
* Named properties on arrays are not modelled (arrays only ever hold the
  uncovered range strings).
-/

set_option maxHeartbeats 1000000

namespace GitopsCoverage

/-- Characters of a JavaScript string. -/
abbrev Str := List Char

/-- Coerce a Lean string literal to the character-list representation. -/
def strOf (s : String) : Str := s.toList

/-- Decimal rendering of a natural number, as JavaScript template
interpolation of an integer-valued number produces it. -/
def natToStr (n : ℕ) : Str := Nat.toDigits 10 n

/-- Numeric value of a nonempty digit string (the unary + applied to the
captured group of the DA regex). -/
def digitsVal (ds : Str) : ℕ := ds.foldl (fun acc c => 10 * acc + (c.toNat - 48)) 0

/-- Does the string s start with the pattern p? -/
def leadsWith (p s : Str) : Bool := decide (s.take p.length = p)

/-- JavaScript String.prototype.split with a one-character separator:
"a/b".split("/") = ["a","b"], "".split("/") = [""], "/".split("/") = ["",""].
The result is always nonempty. -/
def splitOnChar (c : Char) : Str → List Str
  | [] => [[]]
  | a :: rest =>
    match splitOnChar c rest with
    | [] => [[]]
    | s :: ss => if a = c then [] :: s :: ss else (a :: s) :: ss

/-- Array.prototype.join with a one-character separator. -/
def joinWith (c : Char) : List Str → Str
  | [] => []
  | [s] => s
  | s :: ss => s ++ c :: joinWith c ss

/-- JavaScript String.prototype.replace with a plain-string pattern: replaces
only the first occurrence, returns the string unchanged when the pattern does
not occur. -/
def replaceFirst (pat repl : Str) : Str → Str
  | [] => if pat = [] then repl else []
  | a :: rest =>
    if leadsWith pat (a :: rest) then repl ++ (a :: rest).drop pat.length
    else a :: replaceFirst pat repl rest

mutual
/-- JSON-like JavaScript values: numbers (as rationals), strings, arrays and
insertion-ordered objects. -/
inductive JVal where
  | num (q : ℚ)
  | str (s : Str)
  | arr (elems : JElems)
  | obj (fields : JFields)
  deriving DecidableEq
/-- Elements of a JavaScript array. -/
inductive JElems where
  | nil
  | cons (v : JVal) (rest : JElems)
  deriving DecidableEq
/-- Fields of a JavaScript object, in insertion order. -/
inductive JFields where
  | nil
  | cons (key : Str) (val : JVal) (rest : JFields)
  deriving DecidableEq
end

instance : Inhabited JVal := ⟨JVal.num 0⟩

instance : Inhabited JElems := ⟨JElems.nil⟩

instance : Inhabited JFields := ⟨JFields.nil⟩

namespace JElems

/-- Elements of an array as a Lean list. -/
def toList : JElems → List JVal
  | nil => []
  | cons v rest => v :: rest.toList

/-- Array built from a Lean list. -/
def ofList : List JVal → JElems
  | [] => nil
  | v :: rest => cons v (ofList rest)

/-- Array.prototype.push. -/
def push (es : JElems) (v : JVal) : JElems :=
  match es with
  | nil => cons v nil
  | cons w rest => cons w (rest.push v)

end JElems

namespace JFields

/-- First field with the given key (objects built by the script never hold a
key twice: property assignment updates in place). -/
def get : JFields → Str → Option JVal
  | nil, _ => none
  | cons k v rest, k2 => if k = k2 then some v else get rest k2

/-- JavaScript property assignment obj[k] = v: updates the first field with
that key in place, otherwise appends a new field. -/
def set : JFields → Str → JVal → JFields
  | nil, k, v => cons k v nil
  | cons k1 v1 rest, k, v =>
    if k1 = k then cons k1 v rest else cons k1 v1 (set rest k v)

/-- Apply a function to the value of an existing field; fields without the key
are untouched (used for in-place mutation of a nested object). -/
def modify : JFields → Str → (JVal → JVal) → JFields
  | nil, _, _ => nil
  | cons k1 v1 rest, k, f =>
    if k1 = k then cons k1 (f v1) rest else cons k1 v1 (modify rest k f)

/-- Object-rest destructuring: all fields except the given key. -/
def remove : JFields → Str → JFields
  | nil, _ => nil
  | cons k1 v1 rest, k =>
    if k1 = k then remove rest k else cons k1 v1 (remove rest k)

/-- Fields as a Lean association list. -/
def toListF : JFields → List (Str × JVal)
  | nil => []
  | cons k v rest => (k, v) :: toListF rest

/-- Keys in insertion order. -/
def keysOf (fs : JFields) : List Str := fs.toListF.map Prod.fst

end JFields

namespace JVal

/-- Property read v[k]: none models undefined (non-objects have none of the
properties this script reads). -/
def getField : JVal → Str → Option JVal
  | obj fs, k => fs.get k
  | _, _ => none

/-- Property write v[k] = w: a silent no-op on primitives (non-strict mode). -/
def setField : JVal → Str → JVal → JVal
  | obj fs, k, w => obj (fs.set k w)
  | v, _, _ => v

/-- In-place mutation of the object stored at an existing property. -/
def updateField : JVal → Str → (JVal → JVal) → JVal
  | obj fs, k, f => obj (fs.modify k f)
  | v, _, _ => v

/-- Object-rest destructuring at the value level. -/
def removeField : JVal → Str → JVal
  | obj fs, k => obj (fs.remove k)
  | v, _ => v

end JVal

/-- JavaScript truthiness of the values representable here. -/
def truthy : JVal → Bool
  | JVal.num q => decide (q ≠ 0)
  | JVal.str s => decide (s ≠ [])
  | JVal.arr _ => true
  | JVal.obj _ => true

/-- Truthiness of a possibly-undefined value. -/
def truthyO : Option JVal → Bool
  | none => false
  | some v => truthy v

/-- Enumerable fields seen by a for-in loop (see the header note on
non-object enumeration). -/
def fieldsOf : JVal → JFields
  | JVal.obj fs => fs
  | _ => JFields.nil

/-- String payload of a value, when it is a string. -/
def asStr : JVal → Option Str
  | JVal.str s => some s
  | _ => none

/-- Numeric payload of a value, when it is a number (typeof v == "number"). -/
def asNum : JVal → Option ℚ
  | JVal.num q => some q
  | _ => none

/-! ## RangeParser: the rl.on("line") handler, create-markdown.js lines 47-96 -/

/-- Mutable parser state of create-markdown.js lines 49-52: the file currently
being read and the open uncovered range. -/
structure ParserState where
  filename : Option Str
  isRecordingUncovered : Bool
  uncoveredBeginning : ℕ
  uncoveredEnd : ℕ
  deriving DecidableEq

/-- Initial parser state (filename = null, not recording, range 0-0). -/
def initState : ParserState := ⟨none, false, 0, 0⟩

/-- Match of line against /^SF:(.+)$/ (line 59): the captured group is
everything after the SF: marker and must be nonempty. -/
def parseSF (line : Str) : Option Str :=
  if line.take 3 = strOf "SF:" ∧ line.drop 3 ≠ [] then some (line.drop 3) else none

/-- Match of line against /^DA:([0-9]+),0$/ (line 60) together with the unary
plus of lines 72-73: the captured digits as a number. -/
def parseDA0 (line : Str) : Option ℕ :=
  let rest := line.drop 3
  let digits := rest.takeWhile (fun c => c.isDigit)
  if line.take 3 = strOf "DA:" ∧ digits ≠ [] ∧ rest.dropWhile (fun c => c.isDigit) = strOf ",0"
  then some (digitsVal digits) else none

/-- Property key used for jsonSummary[filename]: JavaScript stringifies the
initial null filename to the literal key "null". -/
def keyOf : Option Str → Str
  | some f => f
  | none => strOf "null"

/-- Range string of lines 83-86: "begin", or "begin-end" when the endpoints
differ. -/
def rangeString (st : ParserState) : Str :=
  natToStr st.uncoveredBeginning ++
    (if st.uncoveredEnd ≠ st.uncoveredBeginning then '-' :: natToStr st.uncoveredEnd else [])

/-- Field name "uncovered". -/
def uncoveredKey : Str := strOf "uncovered"

/-- Lines 87-93: ensure jsonSummary[filename] exists, ensure its uncovered
array exists, and push the range string.  none models the TypeError raised
when an existing entry is a truthy primitive or its uncovered field is a
truthy non-array. -/
def pushUncovered (summary : JVal) (key r : Str) : Option JVal :=
  let s1 := if truthyO (summary.getField key) = false
            then summary.setField key (JVal.obj JFields.nil) else summary
  match s1.getField key with
  | none => none
  | some entry =>
    let entry1 := if truthyO (entry.getField uncoveredKey) = false
                  then entry.setField uncoveredKey (JVal.arr JElems.nil) else entry
    match entry1.getField uncoveredKey with
    | some (JVal.arr xs) =>
        some (s1.setField key (entry1.setField uncoveredKey (JVal.arr (xs.push (JVal.str r)))))
    | _ => none

/-- One step of the rl.on("line") handler, lines 57-96: the if/else-if chain
on the SF and DA matches. -/
def stepLine (p : ParserState × JVal) (line : Str) : Option (ParserState × JVal) :=
  let st := p.1
  let summary := p.2
  match parseSF line with
  | some f => some ({ st with filename := some f }, summary)
  | none =>
    match parseDA0 line with
    | some n =>
      if st.isRecordingUncovered = false then
        some ({ st with isRecordingUncovered := true, uncoveredBeginning := n, uncoveredEnd := n },
              summary)
      else
        some ({ st with uncoveredEnd := n }, summary)
    | none =>
      if st.isRecordingUncovered then
        (pushUncovered summary (keyOf st.filename) (rangeString st)).map
          (fun s2 => ({ st with isRecordingUncovered := false }, s2))
      else
        some p

/-- Folding the line handler over a list of trace lines. -/
def processLines (p : ParserState × JVal) (lines : List Str) : Option (ParserState × JVal) :=
  lines.foldlM stepLine p

/-- Whole trace read from the initial state.  The rl.on("close") handler
(lines 100-147) performs no flush: the summary at end of stream is exactly
the second component here. -/
def runTrace (summary : JVal) (lines : List Str) : Option (ParserState × JVal) :=
  processLines (initState, summary) lines

/-- Uncovered range strings recorded for a file, as strings. -/
def uncoveredStrs (summary : JVal) (key : Str) : Option (List Str) :=
  match summary.getField key with
  | some entry =>
    match entry.getField uncoveredKey with
    | some (JVal.arr xs) => xs.toList.mapM asStr
    | _ => none
  | none => none

/-- Uncovered list of a file read leniently: the elements of the uncovered
array if it is one, otherwise empty. -/
def uncoveredListOf (summary : JVal) (key : Str) : List JVal :=
  match (summary.getField key).bind (fun e => e.getField uncoveredKey) with
  | some (JVal.arr xs) => xs.toList
  | _ => []

/-- Statistics field of a summary entry (composed property read
summary[key][dim]). -/
def statField (summary : JVal) (key dim : Str) : Option JVal :=
  (summary.getField key).bind (fun e => e.getField dim)

/-- The four statistics dimensions of a FileSummary. -/
def statDims : List Str :=
  [strOf "statements", strOf "branches", strOf "functions", strOf "lines"]

/-! ## TreeBuilder: the dividedJsonSummary construction, lines 105-121 -/

/-- Reserved key "total". -/
def totalKey : Str := strOf "total"

/-- Directory part of a path: everything before the last slash
(pathSlices.slice(0, -1).join("/"), line 111). -/
def dirOf (k : Str) : Str := joinWith '/' ((splitOnChar '/' k).dropLast)

/-- Filename part of a path: everything after the last slash
(pathSlices[pathSlices.length - 1], line 116). -/
def fileOf (k : Str) : Str := (splitOnChar '/' k).getLastD []

/-- Body of the for-in loop of lines 106-118 for a single key. -/
def divStep (div : JVal) (k : Str) (v : JVal) : JVal :=
  if k = totalKey then div.setField totalKey v
  else
    let dir := dirOf k
    let file := fileOf k
    let div1 := if truthyO (div.getField dir) = false
                then div.setField dir (JVal.obj JFields.nil) else div
    div1.updateField dir (fun b => b.setField file v)

/-- The for-in loop over all summary keys. -/
def divFields : JVal → JFields → JVal
  | div, JFields.nil => div
  | div, JFields.cons k v rest => divFields (divStep div k v) rest

/-- The dividedJsonSummary object of lines 105-118. -/
def dividedJsonSummary (summary : JVal) : JVal :=
  divFields (JVal.obj JFields.nil) (fieldsOf summary)

/-- The totalSummary component of the destructuring on line 121. -/
def totalSummaryOf (d : JVal) : Option JVal := d.getField totalKey

/-- The filesSummary component of the destructuring on line 121. -/
def filesSummaryOf (d : JVal) : JVal := d.removeField totalKey

/-- Look a file up in the two-level tree via a directory key and a filename
key. -/
def treeLookup (tree : JVal) (d f : Str) : Option JVal :=
  (tree.getField d).bind (fun b => b.getField f)

/-! ## Aggregator: sumCoverage, lines 271-368 -/

/-- Test of a key against /^.+\.js$/m (lines 209, 299): with the multiline
flag, some newline-separated line of the key must be a nonempty string ending
in ".js". -/
def jsMatch (k : Str) : Bool :=
  (splitOnChar '\n' k).any (fun l => decide (4 ≤ l.length) && (strOf ".js").isSuffixOf l)

/-- Number.EPSILON. -/
def jsEpsilon : ℚ := 1 / 2 ^ 52

/-- Math.round: half-up rounding (ties toward positive infinity). -/
def jsRound (x : ℚ) : ℚ := ⌊x + 1 / 2⌋

/-- The pct computation of lines 363-366:
total == 0 ? 0 : Math.round(((covered / total) + Number.EPSILON) * 10000) / 100. -/
def pctQ (total covered : ℚ) : ℚ :=
  if total = 0 then 0 else jsRound ((covered / total + jsEpsilon) * 10000) / 100

/-- Accumulated counts of one dimension of the summary object literal of
lines 272-297. -/
structure DimAcc where
  total : ℚ
  covered : ℚ
  skipped : ℚ
  deriving DecidableEq

/-- Zero counts. -/
def zeroDim : DimAcc := ⟨0, 0, 0⟩

/-- Componentwise addition of dimension counts. -/
def addDim (a b : DimAcc) : DimAcc := ⟨a.total + b.total, a.covered + b.covered, a.skipped + b.skipped⟩

/-- Counts of the four dimensions. -/
structure SumsAcc where
  lines : DimAcc
  functions : DimAcc
  statements : DimAcc
  branches : DimAcc
  deriving DecidableEq

/-- All-zero counts (the object literal of lines 272-297 before the loop). -/
def zeroAcc : SumsAcc := ⟨zeroDim, zeroDim, zeroDim, zeroDim⟩

/-- Componentwise addition. -/
def addAcc (a b : SumsAcc) : SumsAcc :=
  ⟨addDim a.lines b.lines, addDim a.functions b.functions,
   addDim a.statements b.statements, addDim a.branches b.branches⟩

/-- Numeric value of a possibly-undefined field, zero otherwise (the
typeof == "number" guards of lines 303-344). -/
def numOr0 (v : Option JVal) : ℚ :=
  match v with
  | some (JVal.num q) => q
  | _ => 0

/-- Contribution of one file entry to one dimension (one of the four guarded
blocks of lines 302-345): nothing if the dimension object is falsy, else each
numeric field. -/
def dimCounts (entry : JVal) (dim : Str) : DimAcc :=
  match entry.getField dim with
  | some d =>
    if truthy d then
      ⟨numOr0 (d.getField (strOf "total")), numOr0 (d.getField (strOf "covered")),
       numOr0 (d.getField (strOf "skipped"))⟩
    else zeroDim
  | none => zeroDim

/-- Contribution of one file entry to all four dimensions. -/
def entryCounts (entry : JVal) : SumsAcc :=
  ⟨dimCounts entry (strOf "lines"), dimCounts entry (strOf "functions"),
   dimCounts entry (strOf "statements"), dimCounts entry (strOf "branches")⟩

mutual
/-- Count accumulation of sumCoverage over one object (lines 298-362). -/
def sumCoverageAux (v : JVal) (recurse : Bool) : SumsAcc :=
  match v with
  | JVal.obj fs => sumFields fs recurse zeroAcc
  | _ => zeroAcc
/-- The for-in loop of lines 298-362: js-matching keys contribute their
entry's counts; other keys except "total" are recursed into only when
requested. -/
def sumFields (fs : JFields) (recurse : Bool) (acc : SumsAcc) : SumsAcc :=
  match fs with
  | JFields.nil => acc
  | JFields.cons k v rest =>
    let acc2 :=
      if jsMatch k then addAcc acc (entryCounts v)
      else if jsMatch k = false ∧ k ≠ totalKey ∧ recurse = true then
        addAcc acc (sumCoverageAux v recurse)
      else acc
    sumFields rest recurse acc2
end

/-- One dimension of the returned summary, with pct recomputed on lines
363-366. -/
def dimToJVal (d : DimAcc) : JVal :=
  JVal.obj (JFields.cons (strOf "total") (JVal.num d.total)
    (JFields.cons (strOf "covered") (JVal.num d.covered)
      (JFields.cons (strOf "skipped") (JVal.num d.skipped)
        (JFields.cons (strOf "pct") (JVal.num (pctQ d.total d.covered)) JFields.nil))))

/-- The sumCoverage function of lines 271-368. -/
def sumCoverage (obj : JVal) (recurse : Bool) : JVal :=
  let s := sumCoverageAux obj recurse
  JVal.obj (JFields.cons (strOf "lines") (dimToJVal s.lines)
    (JFields.cons (strOf "functions") (dimToJVal s.functions)
      (JFields.cons (strOf "statements") (dimToJVal s.statements)
        (JFields.cons (strOf "branches") (dimToJVal s.branches) JFields.nil))))

/-- Numeric statistics field of a coverage-summary value:
value[dim][fld] when it is a number. -/
def statNum (v : JVal) (dim fld : Str) : Option ℚ :=
  ((v.getField dim).bind (fun d => d.getField fld)).bind asNum

/-! ## Renderer: addColorToStats and buildTable, lines 156-267 -/

/-- Badge color constants of lines 157-159. -/
def GREEN : Str := strOf "147317"

/-- Orange badge color. -/
def ORANGE : Str := strOf "c27d15"

/-- Red badge color. -/
def RED : Str := strOf "c23815"

/-- The statsToProcess list of line 165. -/
def statsToProcess : List Str :=
  [strOf "statements", strOf "branches", strOf "functions", strOf "lines"]

/-- Field name "pct". -/
def pctKey : Str := strOf "pct"

/-- Field name "color". -/
def colorKey : Str := strOf "color"

/-- JavaScript relational comparison pct >= bound as used on lines 168 and
171 (undefined and other non-numbers compare false; see the header note). -/
def cmpGE (v : Option JVal) (bound : ℚ) : Bool :=
  match v with
  | some (JVal.num q) => decide (bound ≤ q)
  | _ => false

/-- Threshold color selection of lines 168-175. -/
def colorForPct (pct : Option JVal) : Str :=
  if cmpGE pct 80 then GREEN else if cmpGE pct 50 then ORANGE else RED

/-- One iteration of the addColorToStats loop for one dimension: none models
the TypeError from reading .pct when stats[stat] is undefined. -/
def addColorOne (stats : JVal) (dim : Str) : Option JVal :=
  match stats.getField dim with
  | none => none
  | some sv =>
    let c := colorForPct (sv.getField pctKey)
    some (stats.updateField dim (fun s => s.setField colorKey (JVal.str c)))

/-- The addColorToStats function of lines 164-179 (it mutates the stats
object it is given; the updated object is the return value here). -/
def addColorToStats (stats : JVal) : Option JVal :=
  statsToProcess.foldlM addColorOne stats

/-- Badge-label escaping of file and directory names (lines 234, 255):
first space to underscore, then first hyphen doubled. -/
def escapeLabel (k : Str) : Str :=
  replaceFirst (strOf "-") (strOf "--") (replaceFirst (strOf " ") (strOf "_") k)

/-- One rendered cell: the pct and color values interpolated into a badge
URL. -/
structure Cell where
  pct : Option JVal
  color : Option JVal
  deriving DecidableEq

/-- Cell of one dimension of a colored stats object. -/
def cellOf (entry : JVal) (dim : Str) : Cell :=
  ⟨(entry.getField dim).bind (fun d => d.getField pctKey),
   (entry.getField dim).bind (fun d => d.getField colorKey)⟩

/-- One rendered table row: the data interpolated into one markdown line of
buildTableDepth (string formatting itself is abstracted to this record). -/
structure Row where
  indent : ℕ
  label : Str
  labelEscaped : Str
  statements : Cell
  branches : Cell
  functions : Cell
  lines : Cell
  uncoveredBadges : List Str
  deriving DecidableEq

/-- Uncovered badges of a file row, lines 225-231: each range string with its
first hyphen doubled; none models the TypeError from .replace on a non-string
element. -/
def badgesOf (entry : JVal) : Option (List Str) :=
  match entry.getField uncoveredKey with
  | some (JVal.arr xs) =>
    if 0 < xs.toList.length then
      (xs.toList.mapM asStr).map (fun ls => ls.map (replaceFirst (strOf "-") (strOf "--")))
    else some []
  | _ => some []

/-- The header/total row of lines 200-203. -/
def totalRow (t : JVal) : Row :=
  ⟨0, strOf "All files", strOf "All%20files", cellOf t (strOf "statements"),
   cellOf t (strOf "branches"), cellOf t (strOf "functions"), cellOf t (strOf "lines"), []⟩

/-- A file row of line 237. -/
def fileRow (depth : ℕ) (k : Str) (entry : JVal) (badges : List Str) : Row :=
  ⟨depth * 2, k, escapeLabel k, cellOf entry (strOf "statements"), cellOf entry (strOf "branches"),
   cellOf entry (strOf "functions"), cellOf entry (strOf "lines"), badges⟩

/-- A directory row of line 258. -/
def dirRow (depth : ℕ) (k : Str) (sums : JVal) : Row :=
  ⟨depth * 2, k, escapeLabel k, cellOf sums (strOf "statements"), cellOf sums (strOf "branches"),
   cellOf sums (strOf "functions"), cellOf sums (strOf "lines"), []⟩

mutual
/-- The buildTableDepth function of lines 187-267, in explicit-state style:
the returned triple is the rendered rows, the (mutated) total object and the
(mutated) files object.  none models a TypeError aborting the render. -/
def buildTableDepth (total : Option JVal) (files : JVal) (depth : ℕ) :
    Option (List Row × Option JVal × JVal) :=
  let d := if depth = 0 then 1 else depth
  match total with
  | some t =>
    match addColorToStats t with
    | none => none
    | some t2 =>
      match files with
      | JVal.obj fs =>
        match goFields fs d with
        | none => none
        | some (rows, fs2) => some (totalRow t2 :: rows, some t2, JVal.obj fs2)
      | other => some ([totalRow t2], some t2, other)
  | none =>
    match files with
    | JVal.obj fs =>
      match goFields fs d with
      | none => none
      | some (rows, fs2) => some (rows, none, JVal.obj fs2)
    | other => some ([], none, other)
/-- The for-in loop of lines 207-264 over the files object. -/
def goFields (fs : JFields) (d : ℕ) : Option (List Row × JFields) :=
  match fs with
  | JFields.nil => some ([], JFields.nil)
  | JFields.cons k v rest =>
    if jsMatch k then
      match addColorToStats v with
      | none => none
      | some v2 =>
        match badgesOf v2 with
        | none => none
        | some bs =>
          match goFields rest d with
          | none => none
          | some (rows, rest2) => some (fileRow d k v2 bs :: rows, JFields.cons k v2 rest2)
    else
      let sums := sumCoverage v false
      match addColorToStats sums with
      | none => none
      | some sums2 =>
        match buildTableDepth none v (d + 1) with
        | none => none
        | some (subRows, _, v2) =>
          match goFields rest d with
          | none => none
          | some (rows, rest2) =>
            some (dirRow d k sums2 :: (subRows ++ rows), JFields.cons k v2 rest2)
end

/-- The buildTable alias of lines 182-184. -/
def buildTable (total : Option JVal) (files : JVal) : Option (List Row × Option JVal × JVal) :=
  buildTableDepth total files 0

mutual
/-- Erase every color field, at every object level (specification-side: the
renderer's only mutation is adding such fields). -/
def eraseColors : JVal → JVal
  | JVal.obj fs => JVal.obj (eraseColorsF fs)
  | v => v
/-- Erase color fields from a field list. -/
def eraseColorsF : JFields → JFields
  | JFields.nil => JFields.nil
  | JFields.cons k v rest =>
    if k = colorKey then eraseColorsF rest
    else JFields.cons k (eraseColors v) (eraseColorsF rest)
end

/-- Tree component of a renderer result. -/
def treePart (o : Option (List Row × Option JVal × JVal)) : Option JVal :=
  o.map (fun r => r.2.2)

/-- Color of one dimension of one entry of a possibly-failed tree value. -/
def colorAt (o : Option JVal) (key dim : Str) : Option JVal :=
  o.bind (fun t => (t.getField key).bind (fun e => (e.getField dim).bind
    (fun d => d.getField colorKey)))

/-- Sample aggregation input: one js file with partial statistics and one
non-file entry. -/
def sampleAggFields : JFields :=
  JFields.cons (strOf "a.js")
    (JVal.obj (JFields.cons (strOf "lines")
      (JVal.obj (JFields.cons (strOf "total") (JVal.num 10)
        (JFields.cons (strOf "covered") (JVal.num 8) JFields.nil))) JFields.nil))
    (JFields.cons (strOf "src") (JVal.str (strOf "not-a-file")) JFields.nil)

/-- Colors of the four processed dimensions of a stats object, in
statsToProcess order. -/
def colorsOf (s : JVal) : List (Option JVal) :=
  statsToProcess.map (fun dim => (s.getField dim).bind (fun d => d.getField colorKey))

/-- Stats object carrying the four boundary percentages of the threshold
claim: statements 80, branches 79.99, functions 50, lines 49.99. -/
def boundaryPctStats : JVal :=
  JVal.obj (JFields.cons (strOf "statements")
    (JVal.obj (JFields.cons pctKey (JVal.num 80) JFields.nil))
    (JFields.cons (strOf "branches")
      (JVal.obj (JFields.cons pctKey (JVal.num 79.99) JFields.nil))
      (JFields.cons (strOf "functions")
        (JVal.obj (JFields.cons pctKey (JVal.num 50) JFields.nil))
        (JFields.cons (strOf "lines")
          (JVal.obj (JFields.cons pctKey (JVal.num 49.99) JFields.nil)) JFields.nil))))

/-- Sample flat summary for the tree builder: a root file, a nested file and
a total entry. -/
def sampleTreeFields : JFields :=
  JFields.cons (strOf "a.js") (JVal.num 1)
    (JFields.cons (strOf "src/b.js") (JVal.num 2)
      (JFields.cons (strOf "total") (JVal.num 3) JFields.nil))

/-- One uncolored dimension object with pct 90. -/
def renderStat90 : JVal := JVal.obj (JFields.cons pctKey (JVal.num 90) JFields.nil)

/-- One file entry with pct 90 in all four dimensions. -/
def renderEntry : JVal :=
  JVal.obj (JFields.cons (strOf "statements") renderStat90
    (JFields.cons (strOf "branches") renderStat90
      (JFields.cons (strOf "functions") renderStat90
        (JFields.cons (strOf "lines") renderStat90 JFields.nil))))

/-- A one-file tree fed to the renderer. -/
def renderSampleTree : JVal :=
  JVal.obj (JFields.cons (strOf "a.js") renderEntry JFields.nil)

/-- The colored dimension object the renderer leaves behind. -/
def renderStat90C : JVal :=
  JVal.obj (JFields.cons pctKey (JVal.num 90)
    (JFields.cons colorKey (JVal.str GREEN) JFields.nil))

/-- The colored file entry after rendering. -/
def renderEntryC : JVal :=
  JVal.obj (JFields.cons (strOf "statements") renderStat90C
    (JFields.cons (strOf "branches") renderStat90C
      (JFields.cons (strOf "functions") renderStat90C
        (JFields.cons (strOf "lines") renderStat90C JFields.nil))))

/-- The one-file tree after rendering: every stat gained a color field. -/
def renderSampleTreeOut : JVal :=
  JVal.obj (JFields.cons (strOf "a.js") renderEntryC JFields.nil)

/-- The single row the renderer emits for the one-file tree. -/
def renderSampleRow : Row :=
  ⟨2, strOf "a.js", strOf "a.js",
   ⟨some (JVal.num 90), some (JVal.str GREEN)⟩, ⟨some (JVal.num 90), some (JVal.str GREEN)⟩,
   ⟨some (JVal.num 90), some (JVal.str GREEN)⟩, ⟨some (JVal.num 90), some (JVal.str GREEN)⟩, []⟩

/-! ## SummaryMerger: project-path stripping, lines 16-32 -/

/-- Key relativization of line 28: k.replace(projectPath + "/", "") — the
first occurrence of the root-plus-separator anywhere in the key is removed.
The trailing-slash normalization of line 20 discards its result (JavaScript
strings are immutable), so projectPath is used exactly as configured. -/
def relativizeKey (projectPath k : Str) : Str :=
  replaceFirst (projectPath ++ ['/']) [] k

/-- The jsonSummary load of lines 26-29: Object.fromEntries over the mapped
entries (later duplicate keys overwrite earlier ones in place). -/
def loadSummary (raw : List (Str × JVal)) (projectPath : Str) : JVal :=
  raw.foldl (fun acc e => acc.setField (relativizeKey projectPath e.1) e.2) (JVal.obj JFields.nil)

/-! ## Concrete sample values used by witnesses -/

/-- Sample merged summary: one file with one statistics field and one
already-recorded uncovered range. -/
def sampleSummary : JVal :=
  JVal.obj (JFields.cons (strOf "a.js")
    (JVal.obj (JFields.cons (strOf "statements")
      (JVal.obj (JFields.cons (strOf "total") (JVal.num 5) JFields.nil))
      (JFields.cons uncoveredKey (JVal.arr (JElems.cons (JVal.str (strOf "3")) JElems.nil))
        JFields.nil)))
    JFields.nil)

/-- Sample trace: one file, one uncovered line, one closing record. -/
def sampleTrace : List Str := [strOf "SF:a.js", strOf "DA:9,0", strOf "end_of_record"]

/-- The sample summary after the sample trace (range 9 appended). -/
def sampleSummaryOut : JVal :=
  JVal.obj (JFields.cons (strOf "a.js")
    (JVal.obj (JFields.cons (strOf "statements")
      (JVal.obj (JFields.cons (strOf "total") (JVal.num 5) JFields.nil))
      (JFields.cons uncoveredKey (JVal.arr (JElems.cons (JVal.str (strOf "3"))
        (JElems.cons (JVal.str (strOf "9")) JElems.nil))) JFields.nil)))
    JFields.nil)

/-- The sample summary after a range emission for the unseen file b.js. -/
def sampleSummaryB : JVal :=
  JVal.obj (JFields.cons (strOf "a.js")
    (JVal.obj (JFields.cons (strOf "statements")
      (JVal.obj (JFields.cons (strOf "total") (JVal.num 5) JFields.nil))
      (JFields.cons uncoveredKey (JVal.arr (JElems.cons (JVal.str (strOf "3")) JElems.nil))
        JFields.nil)))
    (JFields.cons (strOf "b.js")
      (JVal.obj (JFields.cons uncoveredKey
        (JVal.arr (JElems.cons (JVal.str (strOf "4")) JElems.nil)) JFields.nil))
      JFields.nil))

/-! ## Basic lemmas about object field operations -/

@[simp]
theorem JFields.get_set_self : ∀ (fs : JFields) (k : Str) (v : JVal), (fs.set k v).get k = some v
  | JFields.nil, k, v => by simp [JFields.set, JFields.get]
  | JFields.cons k1 v1 rest, k, v => by
    by_cases h : k1 = k
    · simp [JFields.set, JFields.get, h]
    · simp [JFields.set, JFields.get, h, JFields.get_set_self rest k v]

@[simp]
theorem JFields.get_set_ne : ∀ (fs : JFields) (k k2 : Str) (v : JVal), k ≠ k2 →
    (fs.set k v).get k2 = fs.get k2
  | JFields.nil, k, k2, v, h => by simp [JFields.set, JFields.get, h]
  | JFields.cons k1 v1 rest, k, k2, v, h => by
    by_cases h1 : k1 = k
    · subst h1
      simp [JFields.set, JFields.get, h]
    · simp [JFields.set, JFields.get, h1, JFields.get_set_ne rest k k2 v h]

@[simp]
theorem JFields.get_modify_self : ∀ (fs : JFields) (k : Str) (f : JVal → JVal),
    (fs.modify k f).get k = (fs.get k).map f
  | JFields.nil, k, f => by simp [JFields.modify, JFields.get]
  | JFields.cons k1 v1 rest, k, f => by
    by_cases h : k1 = k
    · simp [JFields.modify, JFields.get, h]
    · simp [JFields.modify, JFields.get, h, JFields.get_modify_self rest k f]

@[simp]
theorem JFields.get_modify_ne : ∀ (fs : JFields) (k k2 : Str) (f : JVal → JVal), k ≠ k2 →
    (fs.modify k f).get k2 = fs.get k2
  | JFields.nil, k, k2, f, h => by simp [JFields.modify, JFields.get]
  | JFields.cons k1 v1 rest, k, k2, f, h => by
    by_cases h1 : k1 = k
    · subst h1
      simp [JFields.modify, JFields.get, h]
    · simp [JFields.modify, JFields.get, h1, JFields.get_modify_ne rest k k2 f h]

@[simp]
theorem JFields.get_remove_self : ∀ (fs : JFields) (k : Str), (fs.remove k).get k = none
  | JFields.nil, k => by simp [JFields.remove, JFields.get]
  | JFields.cons k1 v1 rest, k => by
    by_cases h : k1 = k
    · simp [JFields.remove, h, JFields.get_remove_self rest k]
    · simp [JFields.remove, JFields.get, h, JFields.get_remove_self rest k]

@[simp]
theorem JFields.get_remove_ne : ∀ (fs : JFields) (k k2 : Str), k ≠ k2 →
    (fs.remove k).get k2 = fs.get k2
  | JFields.nil, k, k2, h => by simp [JFields.remove, JFields.get]
  | JFields.cons k1 v1 rest, k, k2, h => by
    by_cases h1 : k1 = k
    · subst h1
      simp [JFields.remove, JFields.get, h, JFields.get_remove_ne rest k1 k2 h]
    · simp [JFields.remove, JFields.get, h1, JFields.get_remove_ne rest k k2 h]

@[simp]
theorem JElems.toList_push : ∀ (es : JElems) (v : JVal), (es.push v).toList = es.toList ++ [v]
  | JElems.nil, v => by simp [JElems.push, JElems.toList]
  | JElems.cons w rest, v => by simp [JElems.push, JElems.toList, JElems.toList_push rest v]

theorem parseSF_eq_none_of_parseDA0 (line : Str) (n : ℕ) (h : parseDA0 line = some n) :
    parseSF line = none := by
  simp only [parseDA0] at h
  split_ifs at h with hc
  obtain ⟨h1, -, -⟩ := hc
  simp only [parseSF]
  rw [if_neg]
  rintro ⟨ha, -⟩
  exact absurd (h1.symm.trans ha) (by decide)

/-! ## C1 -/

/-- C1: the claim says an uncovered range still open when the trace ends is
flushed exactly once by the stream-end handler.  The code does no such flush:
after the two-line trace SF:foo.js, DA:3,0 the stream ends with the parser
still recording the open range 3-3, the summary still empty, and the
rl.on("close") handler builds its divided summary from that empty object, so
the range is silently dropped. -/
theorem trailing_range_dropped_at_close :
    runTrace (JVal.obj JFields.nil) [strOf "SF:foo.js", strOf "DA:3,0"] =
      some (⟨some (strOf "foo.js"), true, 3, 3⟩, JVal.obj JFields.nil) ∧
    filesSummaryOf (dividedJsonSummary (JVal.obj JFields.nil)) = JVal.obj JFields.nil := by
  constructor
  · decide
  · decide

/-! ## C2 -/

/-- C2 counterexample: the claim says the trace SF:foo.js, DA:5,0, DA:6,0,
DA:8,0 followed by a covered record yields the uncovered sequence
["5-6", "8"] for foo.js.  The code never checks contiguity: DA:8,0 merely
moves the end of the open range to 8, so the run yields ["5-8"]. -/
theorem noncontiguous_records_merge_range :
    (runTrace (JVal.obj JFields.nil) [strOf "SF:foo.js", strOf "DA:5,0", strOf "DA:6,0",
        strOf "DA:8,0", strOf "end_of_record"]).map
      (fun p => uncoveredStrs p.2 (strOf "foo.js")) = some (some [strOf "5-8"]) ∧
    (runTrace (JVal.obj JFields.nil) [strOf "SF:foo.js", strOf "DA:5,0", strOf "DA:6,0",
        strOf "DA:8,0", strOf "end_of_record"]).map
      (fun p => uncoveredStrs p.2 (strOf "foo.js")) ≠ some (some [strOf "5-6", strOf "8"]) := by
  constructor
  · decide
  · decide

/-- C2 amended: while recording, an uncovered line-record always moves the
open range's end to its line number, whether or not it is the direct
successor of the current end — the code performs no contiguity check — so
the example trace SF:foo.js, DA:5,0, DA:6,0, DA:8,0 followed by a covered
record yields ["5-8"] for foo.js. -/
theorem uncovered_record_extends_range :
    (∀ (st : ParserState) (summary : JVal) (line : Str) (n : ℕ),
      st.isRecordingUncovered = true → parseDA0 line = some n →
      stepLine (st, summary) line = some ({ st with uncoveredEnd := n }, summary)) ∧
    (runTrace (JVal.obj JFields.nil) [strOf "SF:foo.js", strOf "DA:5,0", strOf "DA:6,0",
        strOf "DA:8,0", strOf "end_of_record"]).map
      (fun p => uncoveredStrs p.2 (strOf "foo.js")) = some (some [strOf "5-8"]) := by
  constructor
  · intro st summary line n hrec hda
    simp [stepLine, parseSF_eq_none_of_parseDA0 line n hda, hda, hrec]
  · decide

/-- C2 amended witness: with the parser recording the range 5-6, the
noncontiguous record DA:8,0 extends the range end to 8. -/
theorem uncovered_record_extends_range_witness :
    stepLine (⟨some (strOf "foo.js"), true, 5, 6⟩, JVal.obj JFields.nil) (strOf "DA:8,0") =
      some (⟨some (strOf "foo.js"), true, 5, 8⟩, JVal.obj JFields.nil) :=
  uncovered_record_extends_range.1 ⟨some (strOf "foo.js"), true, 5, 6⟩ (JVal.obj JFields.nil)
    (strOf "DA:8,0") 8 rfl (by decide)

/-! ## C6 -/

/-- C6 counterexample: the claim says a range whose records were read under
one file marker is never appended to a file introduced by a later marker.  In
the trace SF:a.js, DA:5,0, SF:b.js, DA:9,1 the range 5 is opened under
a.js, the marker for b.js does not close or reset it, and the covered record
then stores it under b.js: b.js receives ["5"] while a.js receives nothing. -/
theorem open_range_crosses_file_marker :
    (runTrace (JVal.obj JFields.nil)
        [strOf "SF:a.js", strOf "DA:5,0", strOf "SF:b.js", strOf "DA:9,1"]).map
      (fun p => (uncoveredStrs p.2 (strOf "b.js"), uncoveredStrs p.2 (strOf "a.js"))) =
      some (some [strOf "5"], none) := by decide

/-- C6 amended: a file-marker line replaces the current-file context
immediately, but leaves the recording flag and the open range untouched; a
range still open when a later file marker arrives is appended, at the next
closing line, to the file introduced by that later marker. -/
theorem file_marker_keeps_open_range :
    ∀ (st : ParserState) (summary : JVal) (line1 line2 f : Str),
      st.isRecordingUncovered = true → parseSF line1 = some f →
      parseSF line2 = none → parseDA0 line2 = none →
      stepLine (st, summary) line1 = some ({ st with filename := some f }, summary) ∧
      stepLine ({ st with filename := some f }, summary) line2 =
        (pushUncovered summary f (rangeString st)).map
          (fun s2 => ({ st with filename := some f, isRecordingUncovered := false }, s2)) := by
  intro st summary line1 line2 f hrec hsf1 hsf2 hda2
  constructor
  · simp [stepLine, hsf1]
  · simp [stepLine, hsf2, hda2, hrec, keyOf, rangeString]

/-- C6 amended witness: recording the range 5-5 opened under a.js, the marker
SF:b.js replaces the filename, and the following covered record stores the
range under b.js. -/
theorem file_marker_keeps_open_range_witness :
    stepLine (⟨some (strOf "a.js"), true, 5, 5⟩, JVal.obj JFields.nil) (strOf "SF:b.js") =
      some (⟨some (strOf "b.js"), true, 5, 5⟩, JVal.obj JFields.nil) ∧
    stepLine (⟨some (strOf "b.js"), true, 5, 5⟩, JVal.obj JFields.nil) (strOf "DA:9,1") =
      (pushUncovered (JVal.obj JFields.nil) (strOf "b.js")
          (rangeString ⟨some (strOf "a.js"), true, 5, 5⟩)).map
        (fun s2 => (⟨some (strOf "b.js"), false, 5, 5⟩, s2)) :=
  file_marker_keeps_open_range ⟨some (strOf "a.js"), true, 5, 5⟩ (JVal.obj JFields.nil)
    (strOf "SF:b.js") (strOf "DA:9,1") (strOf "b.js") rfl (by decide) (by decide) (by decide)

/-! ## C8 -/

/-- C8: the claim says the root prefix plus any separator is stripped from
the front of every summary key, including for a root written with trailing
separators.  Line 20 of the script computes the trailing-slash strip but
discards the result, so for the root "/proj/" the pattern "/proj//" never
occurs in the key "/proj/a.js" and the key is left absolute; without the
trailing separator the same key is stripped as the claim says. -/
theorem trailing_separator_root_not_stripped :
    relativizeKey (strOf "/proj/") (strOf "/proj/a.js") = strOf "/proj/a.js" ∧
    strOf "/proj/a.js" ≠ strOf "a.js" ∧
    relativizeKey (strOf "/proj") (strOf "/proj/a.js") = strOf "a.js" ∧
    loadSummary [(strOf "/proj/a.js", JVal.num 1)] (strOf "/proj/") =
      JVal.obj (JFields.cons (strOf "/proj/a.js") (JVal.num 1) JFields.nil) := by
  refine ⟨by decide, by decide, by decide, by decide⟩

/-! ## C10 -/

/-- C10: an uncovered record before any file marker opens a range with the
filename still null; when a later non-matching line closes it, the range is
stored under the literal key "null" (JavaScript stringifies the null property
key), creating a fresh FileSummary holding just that uncovered range. -/
theorem null_key_range_recorded :
    ∀ (l1 l2 : Str) (n : ℕ), parseDA0 l1 = some n → parseSF l2 = none → parseDA0 l2 = none →
    runTrace (JVal.obj JFields.nil) [l1, l2] =
      some (⟨none, false, n, n⟩,
        JVal.obj (JFields.cons (strOf "null")
          (JVal.obj (JFields.cons uncoveredKey
            (JVal.arr (JElems.cons (JVal.str (natToStr n)) JElems.nil)) JFields.nil))
          JFields.nil)) := by
  intro l1 l2 n hda1 hsf2 hda2
  simp [runTrace, processLines, List.foldlM, stepLine, parseSF_eq_none_of_parseDA0 l1 n hda1,
    hda1, hsf2, hda2, initState, pushUncovered, keyOf, rangeString, truthyO, truthy,
    JVal.getField, JFields.get, JVal.setField, JFields.set, uncoveredKey, JElems.push]

/-- C10 witness: the two-line trace DA:12,0, end_of_record stores the range
string 12 under the key "null". -/
theorem null_key_range_recorded_witness :
    runTrace (JVal.obj JFields.nil) [strOf "DA:12,0", strOf "end_of_record"] =
      some (⟨none, false, 12, 12⟩,
        JVal.obj (JFields.cons (strOf "null")
          (JVal.obj (JFields.cons uncoveredKey
            (JVal.arr (JElems.cons (JVal.str (natToStr 12)) JElems.nil)) JFields.nil))
          JFields.nil)) :=
  null_key_range_recorded (strOf "DA:12,0") (strOf "end_of_record") 12 (by decide) (by decide)
    (by decide)

/-! ## C7 -/

@[simp]
theorem JFields.set_set_self : ∀ (fs : JFields) (k : Str) (a b : JVal),
    (fs.set k a).set k b = fs.set k b
  | JFields.nil, k, a, b => by simp [JFields.set]
  | JFields.cons k1 v1 rest, k, a, b => by
    by_cases h : k1 = k
    · simp [JFields.set, h]
    · simp [JFields.set, h, JFields.set_set_self rest k a b]

@[simp]
theorem truthyO_none : truthyO none = false := rfl

@[simp]
theorem truthyO_some (v : JVal) : truthyO (some v) = truthy v := rfl

@[simp]
theorem truthy_obj (fs : JFields) : truthy (JVal.obj fs) = true := rfl

@[simp]
theorem truthy_arr (es : JElems) : truthy (JVal.arr es) = true := rfl

@[simp]
theorem getField_obj (fs : JFields) (k : Str) : (JVal.obj fs).getField k = fs.get k := rfl

@[simp]
theorem getField_num (q : ℚ) (k : Str) : (JVal.num q).getField k = none := rfl

@[simp]
theorem getField_str (s : Str) (k : Str) : (JVal.str s).getField k = none := rfl

@[simp]
theorem getField_arr (es : JElems) (k : Str) : (JVal.arr es).getField k = none := rfl

@[simp]
theorem setField_obj (fs : JFields) (k : Str) (w : JVal) :
    (JVal.obj fs).setField k w = JVal.obj (fs.set k w) := rfl

@[simp]
theorem setField_num (q : ℚ) (k : Str) (w : JVal) : (JVal.num q).setField k w = JVal.num q := rfl

@[simp]
theorem setField_str (s : Str) (k : Str) (w : JVal) : (JVal.str s).setField k w = JVal.str s := rfl

@[simp]
theorem setField_arr (es : JElems) (k : Str) (w : JVal) :
    (JVal.arr es).setField k w = JVal.arr es := rfl

theorem JElems.eq_of_toList_eq : ∀ (xs ys : JElems), xs.toList = ys.toList → xs = ys
  | JElems.nil, JElems.nil, _ => rfl
  | JElems.nil, JElems.cons b bs, h => by simp [JElems.toList] at h
  | JElems.cons a as, JElems.nil, h => by simp [JElems.toList] at h
  | JElems.cons a as, JElems.cons b bs, h => by
    simp only [JElems.toList, List.cons.injEq] at h
    rw [h.1, JElems.eq_of_toList_eq as bs h.2]

theorem truthy_getField_eq_none (e : JVal) (h : truthy e = false) (dim : Str) :
    e.getField dim = none := by
  cases e with
  | num q => simp [JVal.getField]
  | str s => simp [JVal.getField]
  | arr es => simp [truthy] at h
  | obj fs => simp [truthy] at h

theorem pushUncovered_eval_new (fs : JFields) (key r : Str)
    (hg : truthyO (fs.get key) = false) :
    pushUncovered (JVal.obj fs) key r =
      some (JVal.obj (fs.set key (JVal.obj (JFields.cons uncoveredKey
        (JVal.arr (JElems.cons (JVal.str r) JElems.nil)) JFields.nil)))) := by
  simp [pushUncovered, hg, JFields.get, JFields.set, JElems.push]

theorem pushUncovered_eval_existing (fs efs : JFields) (key r : Str)
    (hg : fs.get key = some (JVal.obj efs)) (hu : truthyO (efs.get uncoveredKey) = false) :
    pushUncovered (JVal.obj fs) key r =
      some (JVal.obj (fs.set key (JVal.obj (efs.set uncoveredKey
        (JVal.arr (JElems.cons (JVal.str r) JElems.nil)))))) := by
  simp [pushUncovered, hg, hu, JElems.push]

theorem pushUncovered_eval_arr (fs efs : JFields) (xs : JElems) (key r : Str)
    (hg : fs.get key = some (JVal.obj efs)) (hu : efs.get uncoveredKey = some (JVal.arr xs)) :
    pushUncovered (JVal.obj fs) key r =
      some (JVal.obj (fs.set key (JVal.obj (efs.set uncoveredKey
        (JVal.arr (xs.push (JVal.str r))))))) := by
  simp [pushUncovered, hg, hu]

theorem pushUncovered_cases (summary : JVal) (key r : Str) (out : JVal)
    (h : pushUncovered summary key r = some out) :
    ∃ fs efs ys, summary = JVal.obj fs ∧
      out = JVal.obj (fs.set key (JVal.obj (efs.set uncoveredKey (JVal.arr ys)))) ∧
      (∀ dim, dim ≠ uncoveredKey → efs.get dim = (fs.get key).bind (fun e => e.getField dim)) ∧
      ys.toList = uncoveredListOf (JVal.obj fs) key ++ [JVal.str r] ∧
      (fs.get key = none → efs = JFields.nil) := by
  cases summary with
  | num q => simp [pushUncovered, JVal.getField, truthyO, JVal.setField] at h
  | str s => simp [pushUncovered, JVal.getField, truthyO, JVal.setField] at h
  | arr es => simp [pushUncovered, JVal.getField, truthyO, JVal.setField] at h
  | obj fs =>
    refine ⟨fs, ?_⟩
    cases hg : fs.get key with
    | none =>
      rw [pushUncovered_eval_new fs key r (by simp [hg])] at h
      refine ⟨JFields.nil, JElems.cons (JVal.str r) JElems.nil, rfl, ?_, ?_, ?_, fun _ => rfl⟩
      · have h2 : JFields.nil.set uncoveredKey (JVal.arr (JElems.cons (JVal.str r) JElems.nil)) =
            JFields.cons uncoveredKey (JVal.arr (JElems.cons (JVal.str r) JElems.nil))
              JFields.nil := by simp [JFields.set]
        rw [h2]
        exact (Option.some.inj h).symm
      · intro dim hdim
        simp [JFields.get, hg]
      · simp [uncoveredListOf, hg, JElems.toList]
    | some e =>
      cases hte : truthy e with
      | false =>
        rw [pushUncovered_eval_new fs key r (by simp [hg, hte])] at h
        refine ⟨JFields.nil, JElems.cons (JVal.str r) JElems.nil, rfl, ?_, ?_, ?_,
          fun _ => rfl⟩
        · have h2 : JFields.nil.set uncoveredKey (JVal.arr (JElems.cons (JVal.str r) JElems.nil)) =
              JFields.cons uncoveredKey (JVal.arr (JElems.cons (JVal.str r) JElems.nil))
                JFields.nil := by simp [JFields.set]
          rw [h2]
          exact (Option.some.inj h).symm
        · intro dim hdim
          simp [JFields.get, hg, truthy_getField_eq_none e hte]
        · have h3 : e.getField uncoveredKey = none := truthy_getField_eq_none e hte uncoveredKey
          simp [uncoveredListOf, hg, h3, JElems.toList]
      | true =>
        cases e with
        | num q =>
          exfalso
          simp [pushUncovered, hg, hte] at h
        | str s =>
          exfalso
          simp [pushUncovered, hg, hte] at h
        | arr es =>
          exfalso
          simp [pushUncovered, hg] at h
        | obj efs =>
          cases hu : efs.get uncoveredKey with
          | none =>
            rw [pushUncovered_eval_existing fs efs key r hg (by simp [hu])] at h
            refine ⟨efs, JElems.cons (JVal.str r) JElems.nil, rfl,
              (Option.some.inj h).symm, ?_, ?_, fun hc => by simp [hg] at hc⟩
            · intro dim hdim
              simp [hg]
            · simp [uncoveredListOf, hg, hu, JElems.toList]
          | some u =>
            cases htu : truthy u with
            | false =>
              rw [pushUncovered_eval_existing fs efs key r hg (by simp [hu, htu])] at h
              refine ⟨efs, JElems.cons (JVal.str r) JElems.nil, rfl,
                (Option.some.inj h).symm, ?_, ?_, fun hc => by simp [hg] at hc⟩
              · intro dim hdim
                simp [hg]
              · cases u with
                | num q => simp [uncoveredListOf, hg, hu, JElems.toList]
                | str s => simp [uncoveredListOf, hg, hu, JElems.toList]
                | arr es => simp at htu
                | obj gs => simp at htu
            | true =>
              cases u with
              | arr xs =>
                rw [pushUncovered_eval_arr fs efs xs key r hg hu] at h
                refine ⟨efs, xs.push (JVal.str r), rfl, (Option.some.inj h).symm, ?_, ?_,
                  fun hc => by simp [hg] at hc⟩
                · intro dim hdim
                  simp [hg]
                · simp [uncoveredListOf, hg, hu]
              | num q =>
                exfalso
                simp [pushUncovered, hg, hu, htu] at h
              | str s =>
                exfalso
                simp [pushUncovered, hg, hu, htu] at h
              | obj gs =>
                exfalso
                simp [pushUncovered, hg, hu, htu] at h

theorem pushUncovered_statField (summary : JVal) (key r : Str) (out : JVal)
    (h : pushUncovered summary key r = some out) (k dim : Str) (hdim : dim ≠ uncoveredKey) :
    statField out k dim = statField summary k dim := by
  obtain ⟨fs, efs, ys, hsum, hout, hget, -, -⟩ := pushUncovered_cases summary key r out h
  subst hsum
  subst hout
  by_cases hk : k = key
  · subst hk
    simp [statField, JVal.getField, JFields.get_set_self, hget dim hdim,
      JFields.get_set_ne efs uncoveredKey dim _ (fun hc => hdim hc.symm)]
  · simp [statField, JVal.getField, JFields.get_set_ne fs key k _ (fun hc => hk hc.symm)]

theorem stepLine_statField (p : ParserState × JVal) (line : Str) (out : ParserState × JVal)
    (h : stepLine p line = some out) (k dim : Str) (hdim : dim ≠ uncoveredKey) :
    statField out.2 k dim = statField p.2 k dim := by
  obtain ⟨st, summary⟩ := p
  cases hsf : parseSF line with
  | some f =>
    simp [stepLine, hsf] at h
    rw [← h]
  | none =>
    cases hda : parseDA0 line with
    | some n =>
      cases hrec : st.isRecordingUncovered with
      | false =>
        simp [stepLine, hsf, hda, hrec] at h
        rw [← h]
      | true =>
        simp [stepLine, hsf, hda, hrec] at h
        rw [← h]
    | none =>
      cases hrec : st.isRecordingUncovered with
      | true =>
        simp [stepLine, hsf, hda, hrec, Option.map_eq_some'] at h
        obtain ⟨s2, hpush, hout⟩ := h
        rw [← hout]
        exact pushUncovered_statField summary (keyOf st.filename) (rangeString st) s2 hpush k
          dim hdim
      | false =>
        simp [stepLine, hsf, hda, hrec] at h
        rw [← h]

theorem processLines_statField : ∀ (lines : List Str) (p out : ParserState × JVal),
    processLines p lines = some out → ∀ (k dim : Str), dim ≠ uncoveredKey →
    statField out.2 k dim = statField p.2 k dim := by
  intro lines
  induction lines with
  | nil =>
    intro p out h k dim hdim
    simp only [processLines, List.foldlM, Option.pure_def, Option.some.injEq] at h
    rw [← h]
  | cons l ls ih =>
    intro p out h k dim hdim
    simp only [processLines, List.foldlM_cons, Option.bind_eq_bind, Option.bind_eq_some] at h
    obtain ⟨p2, h1, h2⟩ := h
    calc statField out.2 k dim = statField p2.2 k dim := ih p2 out h2 k dim hdim
      _ = statField p.2 k dim := stepLine_statField p l p2 h1 k dim hdim

/-- C7: processing any trace lines never removes or overwrites the
statements, branches, functions or lines statistics of any summary entry;
and each range emission on a closing line appends the range string to the
emitted file's uncovered sequence (in discovery order), creating the entry
as an empty FileSummary holding just that range when none exists. -/
theorem merger_creates_appends_preserves :
    (∀ (lines : List Str) (p out : ParserState × JVal), processLines p lines = some out →
      ∀ (k dim : Str), dim ∈ statDims → statField out.2 k dim = statField p.2 k dim) ∧
    (∀ (summary : JVal) (key r : Str) (out : JVal), pushUncovered summary key r = some out →
      uncoveredListOf out key = uncoveredListOf summary key ++ [JVal.str r] ∧
      (summary.getField key = none →
        out.getField key = some (JVal.obj (JFields.cons uncoveredKey
          (JVal.arr (JElems.cons (JVal.str r) JElems.nil)) JFields.nil)))) := by
  have hd : ∀ dim, dim ∈ statDims → dim ≠ uncoveredKey := by decide
  constructor
  · intro lines p out h k dim hdim
    exact processLines_statField lines p out h k dim (hd dim hdim)
  · intro summary key r out h
    obtain ⟨fs, efs, ys, hsum, hout, hget, hys, hnil⟩ := pushUncovered_cases summary key r out h
    subst hsum
    subst hout
    constructor
    · simp [uncoveredListOf, hys]
    · intro hnone
      have hfs : fs.get key = none := by simpa using hnone
      have hefs := hnil hfs
      subst hefs
      have hys2 : ys = JElems.cons (JVal.str r) JElems.nil := by
        apply JElems.eq_of_toList_eq
        rw [hys]
        simp [uncoveredListOf, hfs, JElems.toList]
      subst hys2
      simp [JFields.set]

/-- C7 witness: on the sample summary, the sample trace leaves the statements
statistics of a.js untouched, the emission for a.js appends the range 9 after
the existing range 3, and the emission for the unseen b.js creates an entry
holding exactly the uncovered list [4]. -/
theorem merger_creates_appends_preserves_witness :
    statField sampleSummaryOut (strOf "a.js") (strOf "statements") =
      statField sampleSummary (strOf "a.js") (strOf "statements") ∧
    uncoveredListOf sampleSummaryOut (strOf "a.js") =
      uncoveredListOf sampleSummary (strOf "a.js") ++ [JVal.str (strOf "9")] ∧
    sampleSummaryB.getField (strOf "b.js") = some (JVal.obj (JFields.cons uncoveredKey
      (JVal.arr (JElems.cons (JVal.str (strOf "4")) JElems.nil)) JFields.nil)) :=
  ⟨merger_creates_appends_preserves.1 sampleTrace (initState, sampleSummary)
      (⟨some (strOf "a.js"), false, 9, 9⟩, sampleSummaryOut) (by decide)
      (strOf "a.js") (strOf "statements") (by decide),
   (merger_creates_appends_preserves.2 sampleSummary (strOf "a.js") (strOf "9")
      sampleSummaryOut (by decide)).1,
   (merger_creates_appends_preserves.2 sampleSummary (strOf "b.js") (strOf "4")
      sampleSummaryB (by decide)).2 (by decide)⟩

/-! ## C3 -/

theorem floor_div_add_small (N D : ℕ) (δ : ℚ) (hD : 0 < D) (h0 : 0 ≤ δ) (h1 : δ < 1 / D) :
    ⌊(N : ℚ) / D + δ⌋ = ⌊(N : ℚ) / D⌋ := by
  have hDq : (0 : ℚ) < D := by exact_mod_cast hD
  have hfloor : ⌊(N : ℚ) / D⌋ = ((N / D : ℕ) : ℤ) := by
    exact_mod_cast Rat.floor_natCast_div_natCast N D
  rw [hfloor, Int.floor_eq_iff]
  have hle : (((N / D : ℕ) : ℤ) : ℚ) ≤ (N : ℚ) / D := by
    have h2 := Int.floor_le ((N : ℚ) / D)
    rw [hfloor] at h2
    exact_mod_cast h2
  constructor
  · linarith
  · have hmod : (N : ℚ) = (D : ℚ) * ((N / D : ℕ) : ℚ) + ((N % D : ℕ) : ℚ) := by
      exact_mod_cast (Nat.div_add_mod N D).symm
    have hsplit : (N : ℚ) / D = ((N / D : ℕ) : ℚ) + ((N % D : ℕ) : ℚ) / D := by
      field_simp
      linarith
    have hr : ((N % D : ℕ) : ℚ) + 1 ≤ (D : ℚ) := by
      have h3 : N % D < D := Nat.mod_lt N hD
      exact_mod_cast h3
    have h4 : ((N % D : ℕ) : ℚ) / D + 1 / D ≤ 1 := by
      rw [div_add_div_same, div_le_one hDq]
      linarith
    have h5 : ((N % D : ℕ) : ℚ) / D + δ < 1 := by linarith
    have hcast : ((((N / D : ℕ) : ℤ)) : ℚ) = ((N / D : ℕ) : ℚ) := Int.cast_natCast _
    rw [hcast, hsplit]
    linarith

/-- C3: pct is 0 when total is 0; otherwise, for every total up to 10^11
(the epsilon in the code is strictly smaller than the spacing of the
attainable ratios there), pct is exactly round(covered/total*10000)/100; and
the color mapping sends pct 80 to the good color, 79.99 and 50 to the
warning color, and 49.99 to the bad color. -/
theorem pct_formula_and_thresholds :
    (∀ c : ℚ, pctQ 0 c = 0) ∧
    (∀ t c : ℕ, 0 < t → (t : ℚ) ≤ 10 ^ 11 →
      pctQ (t : ℚ) (c : ℚ) = jsRound ((c : ℚ) / (t : ℚ) * 10000) / 100) ∧
    (addColorToStats boundaryPctStats).map colorsOf =
      some [some (JVal.str GREEN), some (JVal.str ORANGE), some (JVal.str ORANGE),
        some (JVal.str RED)] := by
  refine ⟨fun c => by simp [pctQ], ?_, ?_⟩
  · intro t c ht htb
    have htq : (0 : ℚ) < t := by exact_mod_cast ht
    have harg2 : ((c : ℚ) / t + jsEpsilon) * 10000 + 1 / 2 =
        ((20000 * c + t : ℕ) : ℚ) / ((2 * t : ℕ) : ℚ) + 10000 * jsEpsilon := by
      rw [jsEpsilon]
      push_cast
      field_simp
      ring
    have harg1 : (c : ℚ) / t * 10000 + 1 / 2 = ((20000 * c + t : ℕ) : ℚ) / ((2 * t : ℕ) : ℚ) := by
      push_cast
      field_simp
      ring
    have hδ : 10000 * jsEpsilon < 1 / ((2 * t : ℕ) : ℚ) := by
      rw [jsEpsilon]
      have h2t : (0 : ℚ) < ((2 * t : ℕ) : ℚ) := by positivity
      rw [lt_div_iff₀ h2t]
      push_cast
      nlinarith [htb, htq]
    have key : ⌊((c : ℚ) / t + jsEpsilon) * 10000 + 1 / 2⌋ = ⌊(c : ℚ) / t * 10000 + 1 / 2⌋ := by
      rw [harg2, harg1]
      exact floor_div_add_small (20000 * c + t) (2 * t) (10000 * jsEpsilon)
        (by positivity) (by rw [jsEpsilon]; norm_num) hδ
    rw [pctQ, if_neg htq.ne', jsRound, jsRound, key]
  · have h1 : (79.99 : ℚ) = ⟨7999, 100, by norm_num, by norm_num⟩ := by
      rw [Rat.mk'_eq_divInt, Rat.divInt_eq_div]
      norm_num
    have h2 : (49.99 : ℚ) = ⟨4999, 100, by norm_num, by norm_num⟩ := by
      rw [Rat.mk'_eq_divInt, Rat.divInt_eq_div]
      norm_num
    rw [boundaryPctStats, h1, h2]
    decide

/-- C3 witness: total 5 covered 4 gives exactly round(4/5*10000)/100. -/
theorem pct_formula_and_thresholds_witness :
    0 < 5 ∧ ((5 : ℕ) : ℚ) ≤ 10 ^ 11 ∧
    pctQ ((5 : ℕ) : ℚ) ((4 : ℕ) : ℚ) =
      jsRound (((4 : ℕ) : ℚ) / ((5 : ℕ) : ℚ) * 10000) / 100 :=
  ⟨by norm_num, by norm_num,
   pct_formula_and_thresholds.2.1 5 4 (by norm_num) (by norm_num)⟩

/-! ## C4 -/

@[simp]
theorem dimToJVal_total (d : DimAcc) :
    (dimToJVal d).getField (strOf "total") = some (JVal.num d.total) := by
  simp [dimToJVal, JFields.get]

@[simp]
theorem dimToJVal_covered (d : DimAcc) :
    (dimToJVal d).getField (strOf "covered") = some (JVal.num d.covered) := by
  have h1 : strOf "total" ≠ strOf "covered" := by decide
  simp [dimToJVal, JFields.get, h1]

@[simp]
theorem dimToJVal_skipped (d : DimAcc) :
    (dimToJVal d).getField (strOf "skipped") = some (JVal.num d.skipped) := by
  have h1 : strOf "total" ≠ strOf "skipped" := by decide
  have h2 : strOf "covered" ≠ strOf "skipped" := by decide
  simp [dimToJVal, JFields.get, h1, h2]

@[simp]
theorem dimToJVal_pct (d : DimAcc) :
    (dimToJVal d).getField (strOf "pct") = some (JVal.num (pctQ d.total d.covered)) := by
  have h1 : strOf "total" ≠ strOf "pct" := by decide
  have h2 : strOf "covered" ≠ strOf "pct" := by decide
  have h3 : strOf "skipped" ≠ strOf "pct" := by decide
  simp [dimToJVal, JFields.get, h1, h2, h3]

@[simp]
theorem sumCoverage_getField_lines (v : JVal) (r : Bool) :
    (sumCoverage v r).getField (strOf "lines") =
      some (dimToJVal (sumCoverageAux v r).lines) := by
  simp [sumCoverage, JFields.get]

@[simp]
theorem sumCoverage_getField_functions (v : JVal) (r : Bool) :
    (sumCoverage v r).getField (strOf "functions") =
      some (dimToJVal (sumCoverageAux v r).functions) := by
  have h1 : strOf "lines" ≠ strOf "functions" := by decide
  simp [sumCoverage, JFields.get, h1]

@[simp]
theorem sumCoverage_getField_statements (v : JVal) (r : Bool) :
    (sumCoverage v r).getField (strOf "statements") =
      some (dimToJVal (sumCoverageAux v r).statements) := by
  have h1 : strOf "lines" ≠ strOf "statements" := by decide
  have h2 : strOf "functions" ≠ strOf "statements" := by decide
  simp [sumCoverage, JFields.get, h1, h2]

@[simp]
theorem sumCoverage_getField_branches (v : JVal) (r : Bool) :
    (sumCoverage v r).getField (strOf "branches") =
      some (dimToJVal (sumCoverageAux v r).branches) := by
  have h1 : strOf "lines" ≠ strOf "branches" := by decide
  have h2 : strOf "functions" ≠ strOf "branches" := by decide
  have h3 : strOf "statements" ≠ strOf "branches" := by decide
  simp [sumCoverage, JFields.get, h1, h2, h3]

theorem sumFields_false_sel (sel : SumsAcc → DimAcc) (dimS : Str)
    (hadd : ∀ a b, sel (addAcc a b) = addDim (sel a) (sel b))
    (hentry : ∀ v, sel (entryCounts v) = dimCounts v dimS) :
    ∀ (fs : JFields) (acc : SumsAcc),
      sel (sumFields fs false acc) =
        (fs.toListF.filter (fun e => jsMatch e.1)).foldl
          (fun d e => addDim d (dimCounts e.2 dimS)) (sel acc)
  | JFields.nil, acc => by simp [sumFields, JFields.toListF]
  | JFields.cons k v rest, acc => by
    cases hk : jsMatch k with
    | true =>
      simp only [sumFields, hk, if_true]
      rw [sumFields_false_sel sel dimS hadd hentry rest (addAcc acc (entryCounts v))]
      simp [JFields.toListF, List.filter_cons, hk, hadd, hentry]
    | false =>
      simp only [sumFields, hk, Bool.false_eq_true, if_false]
      rw [if_neg (by simp)]
      rw [sumFields_false_sel sel dimS hadd hentry rest acc]
      simp [JFields.toListF, List.filter_cons, hk]

theorem foldl_addDim_proj (p : DimAcc → ℚ) (hp : ∀ a b, p (addDim a b) = p a + p b) :
    ∀ (l : List (Str × JVal)) (g : Str × JVal → DimAcc) (d : DimAcc),
      p (l.foldl (fun acc x => addDim acc (g x)) d) = p d + (l.map (fun x => p (g x))).sum := by
  intro l
  induction l with
  | nil => intro g d; simp
  | cons x xs ih =>
    intro g d
    simp only [List.foldl_cons, List.map_cons, List.sum_cons]
    rw [ih g (addDim d (g x)), hp]
    ring

/-- C4: for every input object and each of the four dimensions, the
non-recursive sumCoverage aggregate has total, covered and skipped equal to
the componentwise sum over the entries whose key matches the js-file name
pattern (missing or non-numeric fields contributing zero), and pct is
recomputed from the summed total and covered counts. -/
theorem aggregate_is_componentwise_sum :
    ∀ (fs : JFields) (dim : Str),
      dim ∈ [strOf "lines", strOf "functions", strOf "statements", strOf "branches"] →
      statNum (sumCoverage (JVal.obj fs) false) dim (strOf "total") =
        some ((fs.toListF.filter (fun e => jsMatch e.1)).map
          (fun e => (dimCounts e.2 dim).total)).sum ∧
      statNum (sumCoverage (JVal.obj fs) false) dim (strOf "covered") =
        some ((fs.toListF.filter (fun e => jsMatch e.1)).map
          (fun e => (dimCounts e.2 dim).covered)).sum ∧
      statNum (sumCoverage (JVal.obj fs) false) dim (strOf "skipped") =
        some ((fs.toListF.filter (fun e => jsMatch e.1)).map
          (fun e => (dimCounts e.2 dim).skipped)).sum ∧
      statNum (sumCoverage (JVal.obj fs) false) dim (strOf "pct") =
        some (pctQ
          ((fs.toListF.filter (fun e => jsMatch e.1)).map
            (fun e => (dimCounts e.2 dim).total)).sum
          ((fs.toListF.filter (fun e => jsMatch e.1)).map
            (fun e => (dimCounts e.2 dim).covered)).sum) := by
  intro fs dim hdim
  have haux : sumCoverageAux (JVal.obj fs) false = sumFields fs false zeroAcc := by
    simp [sumCoverageAux]
  have htot := foldl_addDim_proj (fun d => d.total) (fun a b => rfl)
  have hcov := foldl_addDim_proj (fun d => d.covered) (fun a b => rfl)
  have hskp := foldl_addDim_proj (fun d => d.skipped) (fun a b => rfl)
  simp only [List.mem_cons, List.not_mem_nil, or_false] at hdim
  rcases hdim with rfl | rfl | rfl | rfl
  · have hsel := sumFields_false_sel (fun s => s.lines) (strOf "lines")
      (fun a b => rfl) (fun v => rfl) fs zeroAcc
    refine ⟨?_, ?_, ?_, ?_⟩ <;>
      (simp [statNum, asNum, haux, hsel, htot, hcov, hskp]; try norm_num [zeroAcc, zeroDim])
  · have hsel := sumFields_false_sel (fun s => s.functions) (strOf "functions")
      (fun a b => rfl) (fun v => rfl) fs zeroAcc
    refine ⟨?_, ?_, ?_, ?_⟩ <;>
      (simp [statNum, asNum, haux, hsel, htot, hcov, hskp]; try norm_num [zeroAcc, zeroDim])
  · have hsel := sumFields_false_sel (fun s => s.statements) (strOf "statements")
      (fun a b => rfl) (fun v => rfl) fs zeroAcc
    refine ⟨?_, ?_, ?_, ?_⟩ <;>
      (simp [statNum, asNum, haux, hsel, htot, hcov, hskp]; try norm_num [zeroAcc, zeroDim])
  · have hsel := sumFields_false_sel (fun s => s.branches) (strOf "branches")
      (fun a b => rfl) (fun v => rfl) fs zeroAcc
    refine ⟨?_, ?_, ?_, ?_⟩ <;>
      (simp [statNum, asNum, haux, hsel, htot, hcov, hskp]; try norm_num [zeroAcc, zeroDim])

/-- C4 witness: the lines dimension of a one-file object. -/
theorem aggregate_is_componentwise_sum_witness :
    strOf "lines" ∈ [strOf "lines", strOf "functions", strOf "statements", strOf "branches"] ∧
    statNum (sumCoverage (JVal.obj sampleAggFields) false) (strOf "lines") (strOf "total") =
      some ((sampleAggFields.toListF.filter (fun e => jsMatch e.1)).map
        (fun e => (dimCounts e.2 (strOf "lines")).total)).sum :=
  ⟨by decide,
   (aggregate_is_componentwise_sum sampleAggFields (strOf "lines") (by decide)).1⟩

/-! ## C9 -/

theorem eraseColorsF_set_color : ∀ (fs : JFields) (c : JVal),
    eraseColorsF (fs.set colorKey c) = eraseColorsF fs
  | JFields.nil, c => by simp [JFields.set, eraseColorsF]
  | JFields.cons k v rest, c => by
    by_cases hk : k = colorKey
    · subst hk
      simp [JFields.set, eraseColorsF]
    · simp [JFields.set, eraseColorsF, hk, Ne.symm hk, eraseColorsF_set_color rest c]

theorem eraseColors_setField_color (v c : JVal) :
    eraseColors (v.setField colorKey c) = eraseColors v := by
  cases v with
  | obj fs => simp [eraseColors, eraseColorsF_set_color]
  | num q => rfl
  | str s => rfl
  | arr es => rfl

theorem eraseColorsF_modify : ∀ (fs : JFields) (k : Str) (g : JVal → JVal),
    (∀ v, eraseColors (g v) = eraseColors v) →
    eraseColorsF (fs.modify k g) = eraseColorsF fs
  | JFields.nil, k, g, hg => by simp [JFields.modify]
  | JFields.cons k1 v1 rest, k, g, hg => by
    by_cases hk : k1 = k
    · subst hk
      by_cases hc : k1 = colorKey
      · subst hc
        simp [JFields.modify, eraseColorsF]
      · simp [JFields.modify, eraseColorsF, hc, hg v1]
    · simp [JFields.modify, eraseColorsF, hk, eraseColorsF_modify rest k g hg]

theorem eraseColors_updateField (v : JVal) (k : Str) (g : JVal → JVal)
    (hg : ∀ w, eraseColors (g w) = eraseColors w) :
    eraseColors (v.updateField k g) = eraseColors v := by
  cases v with
  | obj fs => simp [JVal.updateField, eraseColors, eraseColorsF_modify fs k g hg]
  | num q => rfl
  | str s => rfl
  | arr es => rfl

theorem addColorOne_erase (stats : JVal) (dim : Str) (out : JVal)
    (h : addColorOne stats dim = some out) : eraseColors out = eraseColors stats := by
  simp only [addColorOne] at h
  cases hg : stats.getField dim with
  | none => simp [hg] at h
  | some sv =>
    simp only [hg, Option.some.injEq] at h
    rw [← h]
    exact eraseColors_updateField stats dim _ (fun w => eraseColors_setField_color w _)

theorem addColorToStats_erase (stats out : JVal) (h : addColorToStats stats = some out) :
    eraseColors out = eraseColors stats := by
  simp only [addColorToStats, statsToProcess, List.foldlM_cons, List.foldlM_nil,
    Option.bind_eq_bind, Option.bind_eq_some] at h
  obtain ⟨s1, h1, s2, h2, s3, h3, h4⟩ := h
  have h5 : addColorOne s3 (strOf "lines") = some out := by
    simpa using h4
  calc eraseColors out = eraseColors s3 := addColorOne_erase s3 _ out h5
    _ = eraseColors s2 := addColorOne_erase s2 _ s3 h3
    _ = eraseColors s1 := addColorOne_erase s1 _ s2 h2
    _ = eraseColors stats := addColorOne_erase stats _ s1 h1

theorem goFields_erase : ∀ (n : ℕ) (fs : JFields), sizeOf fs ≤ n →
    ∀ (d : ℕ) (rows : List Row) (fs2 : JFields),
    goFields fs d = some (rows, fs2) → eraseColorsF fs2 = eraseColorsF fs := by
  intro n
  induction n using Nat.strong_induction_on with
  | _ n ih =>
    intro fs hsz d rows fs2 h
    cases fs with
    | nil =>
      simp only [goFields, Option.some.injEq, Prod.mk.injEq] at h
      rw [← h.2]
    | cons k v rest =>
      have hrest : sizeOf rest < sizeOf (JFields.cons k v rest) := by
        simp only [JFields.cons.sizeOf_spec]
        omega
      have hv : sizeOf v < sizeOf (JFields.cons k v rest) := by
        simp only [JFields.cons.sizeOf_spec]
        omega
      cases hk : jsMatch k with
      | true =>
        simp only [goFields, hk, if_true] at h
        cases hac : addColorToStats v with
        | none => simp [hac] at h
        | some v2 =>
          simp only [hac] at h
          cases hb : badgesOf v2 with
          | none => simp [hb] at h
          | some bs =>
            simp only [hb] at h
            cases hgr : goFields rest d with
            | none => simp [hgr] at h
            | some pr =>
              obtain ⟨rows3, rest2⟩ := pr
              simp only [hgr, Option.some.injEq, Prod.mk.injEq] at h
              rw [← h.2]
              have hrec : eraseColorsF rest2 = eraseColorsF rest :=
                ih (sizeOf rest) (lt_of_lt_of_le hrest hsz) rest le_rfl d rows3 rest2 hgr
              have hv2 : eraseColors v2 = eraseColors v := addColorToStats_erase v v2 hac
              by_cases hc : k = colorKey
              · simp [eraseColorsF, hc, hrec]
              · simp [eraseColorsF, hc, hrec, hv2]
      | false =>
        simp only [goFields, hk, Bool.false_eq_true, if_false] at h
        cases hacs : addColorToStats (sumCoverage v false) with
        | none => simp [hacs] at h
        | some sums2 =>
          simp only [hacs] at h
          cases hbt : buildTableDepth none v (d + 1) with
          | none => simp [hbt] at h
          | some tr =>
            obtain ⟨subRows, t2, v2⟩ := tr
            simp only [hbt] at h
            cases hgr : goFields rest d with
            | none => simp [hgr] at h
            | some pr =>
              obtain ⟨rows3, rest2⟩ := pr
              simp only [hgr, Option.some.injEq, Prod.mk.injEq] at h
              rw [← h.2]
              have hrec : eraseColorsF rest2 = eraseColorsF rest :=
                ih (sizeOf rest) (lt_of_lt_of_le hrest hsz) rest le_rfl d rows3 rest2 hgr
              have hv2 : eraseColors v2 = eraseColors v := by
                cases v with
                | obj vfs =>
                  have hvfs : sizeOf vfs < sizeOf (JVal.obj vfs) := by
                    simp only [JVal.obj.sizeOf_spec]
                    omega
                  simp only [buildTableDepth] at hbt
                  have hif : (if d + 1 = 0 then 1 else d + 1) = d + 1 := by simp
                  rw [hif] at hbt
                  cases hgv : goFields vfs (d + 1) with
                  | none => simp [hgv] at hbt
                  | some pv =>
                    obtain ⟨rows4, vfs2⟩ := pv
                    try rw [hgv] at hbt
                    try simp only [Option.some.injEq, Prod.mk.injEq] at hbt
                    rw [← hbt.2.2]
                    have : eraseColorsF vfs2 = eraseColorsF vfs :=
                      ih (sizeOf vfs)
                        (lt_of_lt_of_le (lt_trans hvfs hv) hsz) vfs le_rfl
                        (d + 1) rows4 vfs2 hgv
                    simp [eraseColors, this]
                | num q =>
                  simp only [buildTableDepth, Option.some.injEq, Prod.mk.injEq] at hbt
                  rw [← hbt.2.2]
                | str s =>
                  simp only [buildTableDepth, Option.some.injEq, Prod.mk.injEq] at hbt
                  rw [← hbt.2.2]
                | arr es =>
                  simp only [buildTableDepth, Option.some.injEq, Prod.mk.injEq] at hbt
                  rw [← hbt.2.2]
              by_cases hc : k = colorKey
              · simp [eraseColorsF, hc, hrec]
              · simp [eraseColorsF, hc, hrec, hv2]

/-- C9 counterexample: the claim says the renderer leaves every CoverageStat
in the tree unchanged.  Rendering the one-file tree writes a color field into
each of its statistics objects: the statements stat of a.js has color green
in the output tree and no color in the input tree, so the output tree is not
the input tree. -/
theorem renderer_mutates_tree :
    colorAt (treePart (buildTableDepth none renderSampleTree 1)) (strOf "a.js")
        (strOf "statements") = some (JVal.str GREEN) ∧
    colorAt (some renderSampleTree) (strOf "a.js") (strOf "statements") = none ∧
    treePart (buildTableDepth none renderSampleTree 1) ≠ some renderSampleTree := by
  refine ⟨by decide, by decide, by decide⟩

/-- C9 amended: the renderer is read-only on the coverage data except that it
adds threshold color fields: whenever buildTableDepth succeeds, the output
tree and total agree with the inputs after erasing every color field, so all
counts, percentages and uncovered sequences are unchanged. -/
theorem renderer_only_adds_colors :
    ∀ (total : Option JVal) (files : JVal) (depth : ℕ) (rows : List Row)
      (total2 : Option JVal) (files2 : JVal),
      buildTableDepth total files depth = some (rows, total2, files2) →
      eraseColors files2 = eraseColors files ∧
      total2.map eraseColors = total.map eraseColors := by
  intro total files depth rows total2 files2 h
  cases total with
  | none =>
    cases files with
    | obj fs =>
      simp only [buildTableDepth] at h
      cases hgr : goFields fs (if depth = 0 then 1 else depth) with
      | none => simp [hgr] at h
      | some pr =>
        obtain ⟨rows3, fs2⟩ := pr
        try rw [hgr] at h
        try simp only [Option.some.injEq, Prod.mk.injEq] at h
        obtain ⟨-, h2, h3⟩ := h
        refine ⟨?_, by rw [← h2]⟩
        rw [← h3]
        simp only [eraseColors]
        rw [goFields_erase (sizeOf fs) fs le_rfl _ rows3 fs2 hgr]
    | num q =>
      simp only [buildTableDepth, Option.some.injEq, Prod.mk.injEq] at h
      exact ⟨by rw [← h.2.2], by rw [← h.2.1]⟩
    | str s =>
      simp only [buildTableDepth, Option.some.injEq, Prod.mk.injEq] at h
      exact ⟨by rw [← h.2.2], by rw [← h.2.1]⟩
    | arr es =>
      simp only [buildTableDepth, Option.some.injEq, Prod.mk.injEq] at h
      exact ⟨by rw [← h.2.2], by rw [← h.2.1]⟩
  | some t =>
    cases hac : addColorToStats t with
    | none =>
      cases files <;> simp [buildTableDepth, hac] at h
    | some t2 =>
      have ht2 : eraseColors t2 = eraseColors t := addColorToStats_erase t t2 hac
      cases files with
      | obj fs =>
        simp only [buildTableDepth, hac] at h
        cases hgr : goFields fs (if depth = 0 then 1 else depth) with
        | none => simp [hgr] at h
        | some pr =>
          obtain ⟨rows3, fs2⟩ := pr
          try rw [hgr] at h
          try simp only [Option.some.injEq, Prod.mk.injEq] at h
          obtain ⟨-, h2, h3⟩ := h
          refine ⟨?_, ?_⟩
          · rw [← h3]
            simp only [eraseColors]
            rw [goFields_erase (sizeOf fs) fs le_rfl _ rows3 fs2 hgr]
          · rw [← h2]
            simp [ht2]
      | num q =>
        simp only [buildTableDepth, hac, Option.some.injEq, Prod.mk.injEq] at h
        exact ⟨by rw [← h.2.2], by rw [← h.2.1]; simp [ht2]⟩
      | str s =>
        simp only [buildTableDepth, hac, Option.some.injEq, Prod.mk.injEq] at h
        exact ⟨by rw [← h.2.2], by rw [← h.2.1]; simp [ht2]⟩
      | arr es =>
        simp only [buildTableDepth, hac, Option.some.injEq, Prod.mk.injEq] at h
        exact ⟨by rw [← h.2.2], by rw [← h.2.1]; simp [ht2]⟩

/-- C9 amended witness: rendering the one-file tree produces an output tree
that agrees with the input after erasing color fields. -/
theorem renderer_only_adds_colors_witness :
    eraseColors renderSampleTreeOut = eraseColors renderSampleTree ∧
    (none : Option JVal).map eraseColors = (none : Option JVal).map eraseColors :=
  renderer_only_adds_colors none renderSampleTree 1 [renderSampleRow] none renderSampleTreeOut
    (by decide)

/-! ## C5 -/

/-- C5 counterexample: the claim says every original file path is reachable
via exactly one (directory, filename) pair and "total" never appears as a
tree entry.  The keys "a" and "/a" both split to the pair ("", "a"), so the
later entry overwrites the earlier and the FileSummary of "a" is reachable
nowhere; and the key "total/a.js" is filed under the top-level key "total",
which the destructuring then extracts as the project total, leaving the tree
empty. -/
theorem tree_pair_collision :
    filesSummaryOf (dividedJsonSummary (JVal.obj
        (JFields.cons (strOf "a") (JVal.num 1)
          (JFields.cons (strOf "/a") (JVal.num 2) JFields.nil)))) =
      JVal.obj (JFields.cons [] (JVal.obj (JFields.cons (strOf "a") (JVal.num 2) JFields.nil))
        JFields.nil) ∧
    dirOf (strOf "a") = dirOf (strOf "/a") ∧ fileOf (strOf "a") = fileOf (strOf "/a") ∧
    treeLookup (filesSummaryOf (dividedJsonSummary (JVal.obj
        (JFields.cons (strOf "a") (JVal.num 1)
          (JFields.cons (strOf "/a") (JVal.num 2) JFields.nil)))))
      (dirOf (strOf "a")) (fileOf (strOf "a")) = some (JVal.num 2) ∧
    filesSummaryOf (dividedJsonSummary (JVal.obj
        (JFields.cons (strOf "total/a.js") (JVal.num 3) JFields.nil))) = JVal.obj JFields.nil ∧
    totalSummaryOf (dividedJsonSummary (JVal.obj
        (JFields.cons (strOf "total/a.js") (JVal.num 3) JFields.nil))) =
      some (JVal.obj (JFields.cons (strOf "a.js") (JVal.num 3) JFields.nil)) := by
  refine ⟨by decide, by decide, by decide, by decide, by decide, by decide⟩

theorem divStep_obj (gs : JFields) (k : Str) (v : JVal) :
    ∃ gs2, divStep (JVal.obj gs) k v = JVal.obj gs2 := by
  by_cases hk : k = totalKey
  · exact ⟨gs.set totalKey v, by simp [divStep, hk]⟩
  · by_cases ht : truthyO (gs.get (dirOf k)) = false
    · exact ⟨(gs.set (dirOf k) (JVal.obj JFields.nil)).modify (dirOf k)
        (fun b => b.setField (fileOf k) v), by simp [divStep, hk, ht, JVal.updateField]⟩
    · exact ⟨gs.modify (dirOf k) (fun b => b.setField (fileOf k) v), by
        simp [divStep, hk, ht, JVal.updateField]⟩

theorem divFields_obj : ∀ (rem : JFields) (gs : JFields),
    ∃ gs2, divFields (JVal.obj gs) rem = JVal.obj gs2
  | JFields.nil, gs => ⟨gs, rfl⟩
  | JFields.cons k v rest, gs => by
    obtain ⟨gs1, h1⟩ := divStep_obj gs k v
    obtain ⟨gs2, h2⟩ := divFields_obj rest gs1
    exact ⟨gs2, by simp [divFields, h1, h2]⟩

@[simp]
theorem treeLookup_obj (gs : JFields) (d f : Str) :
    treeLookup (JVal.obj gs) d f = (gs.get d).bind (fun b => b.getField f) := rfl

@[simp]
theorem removeField_obj (gs : JFields) (k : Str) :
    (JVal.obj gs).removeField k = JVal.obj (gs.remove k) := rfl

theorem divStep_inv (gs : JFields) (k : Str) (v : JVal) (processed : List (Str × JVal))
    (hknotin : k ∉ processed.map Prod.fst)
    (hdirk : k ≠ totalKey → dirOf k ≠ totalKey)
    (hinjk : ∀ p, p ∈ processed → p.1 ≠ totalKey → k ≠ totalKey →
      dirOf p.1 = dirOf k → fileOf p.1 = fileOf k → p.1 = k)
    (hwf : ∀ d, d ≠ totalKey → (gs.get d = none ∨ ∃ b, gs.get d = some (JVal.obj b)))
    (hlook : ∀ d f w, d ≠ totalKey →
      (treeLookup (JVal.obj gs) d f = some w ↔
        ∃ p, p ∈ processed ∧ p.2 = w ∧ p.1 ≠ totalKey ∧ d = dirOf p.1 ∧ f = fileOf p.1)) :
    ∃ gs2, divStep (JVal.obj gs) k v = JVal.obj gs2 ∧
      (∀ d, d ≠ totalKey → (gs2.get d = none ∨ ∃ b, gs2.get d = some (JVal.obj b))) ∧
      (∀ d f w, d ≠ totalKey →
        (treeLookup (JVal.obj gs2) d f = some w ↔
          ∃ p, p ∈ processed ++ [(k, v)] ∧ p.2 = w ∧ p.1 ≠ totalKey ∧ d = dirOf p.1 ∧
            f = fileOf p.1)) := by
  by_cases hk : k = totalKey
  · subst hk
    refine ⟨gs.set totalKey v, by simp [divStep], ?_, ?_⟩
    · intro d hd
      rw [JFields.get_set_ne gs totalKey d v (Ne.symm hd)]
      exact hwf d hd
    · intro d f w hd
      rw [treeLookup_obj, JFields.get_set_ne gs totalKey d v (Ne.symm hd), ← treeLookup_obj,
        hlook d f w hd]
      constructor
      · rintro ⟨p, hp, h2, h3, h4, h5⟩
        exact ⟨p, List.mem_append_left _ hp, h2, h3, h4, h5⟩
      · rintro ⟨p, hp, h2, h3, h4, h5⟩
        rcases List.mem_append.mp hp with hp1 | hp2
        · exact ⟨p, hp1, h2, h3, h4, h5⟩
        · exfalso
          have hp3 : p = (totalKey, v) := by simpa using hp2
          rw [hp3] at h3
          exact h3 rfl
  · have hdir := hdirk hk
    rcases hwf (dirOf k) hdir with hnone | ⟨b, hb⟩
    · have ht : truthyO (gs.get (dirOf k)) = false := by simp [hnone]
      refine ⟨(gs.set (dirOf k) (JVal.obj JFields.nil)).modify (dirOf k)
          (fun b2 => b2.setField (fileOf k) v),
        by simp [divStep, hk, ht, JVal.updateField], ?_, ?_⟩
      all_goals
        have hAself : ((gs.set (dirOf k) (JVal.obj JFields.nil)).modify (dirOf k)
            (fun b2 => b2.setField (fileOf k) v)).get (dirOf k) =
            some (JVal.obj (JFields.cons (fileOf k) v JFields.nil)) := by
          rw [JFields.get_modify_self, JFields.get_set_self]
          simp [JFields.set]
      all_goals
        have hAother : ∀ d, d ≠ dirOf k →
            ((gs.set (dirOf k) (JVal.obj JFields.nil)).modify (dirOf k)
              (fun b2 => b2.setField (fileOf k) v)).get d = gs.get d := by
          intro d hd
          rw [JFields.get_modify_ne _ _ _ _ (Ne.symm hd),
            JFields.get_set_ne _ _ _ _ (Ne.symm hd)]
      · intro d hd
        by_cases hdd : d = dirOf k
        · subst hdd
          exact Or.inr ⟨_, hAself⟩
        · rw [hAother d hdd]
          exact hwf d hd
      · intro d f w hd
        by_cases hdd : d = dirOf k
        · subst hdd
          rw [treeLookup_obj, hAself]
          have hget : (JFields.cons (fileOf k) v JFields.nil).get f =
              if fileOf k = f then some v else none := by
            simp [JFields.get]
          simp only [Option.some_bind, getField_obj, hget]
          by_cases hf : fileOf k = f
          · subst hf
            simp only [if_pos rfl]
            constructor
            · intro hw
              exact ⟨(k, v), List.mem_append_right _ (by simp), by
                  simpa using hw, hk, rfl, rfl⟩
            · rintro ⟨p, hp, h2, h3, h4, h5⟩
              rcases List.mem_append.mp hp with hp1 | hp2
              · exfalso
                have hold := (hlook (dirOf k) (fileOf k) w hdir).mpr
                  ⟨p, hp1, h2, h3, h4, h5⟩
                rw [treeLookup_obj, hnone] at hold
                simp at hold
              · have hp3 : p = (k, v) := by simpa using hp2
                rw [hp3] at h2
                simpa using h2
          · rw [if_neg hf]
            constructor
            · intro hw
              simp at hw
            · rintro ⟨p, hp, h2, h3, h4, h5⟩
              rcases List.mem_append.mp hp with hp1 | hp2
              · exfalso
                have hold := (hlook (dirOf k) f w hdir).mpr ⟨p, hp1, h2, h3, h4, h5⟩
                rw [treeLookup_obj, hnone] at hold
                simp at hold
              · exfalso
                have hp3 : p = (k, v) := by simpa using hp2
                rw [hp3] at h5
                exact hf h5.symm
        · rw [treeLookup_obj, hAother d hdd, ← treeLookup_obj, hlook d f w hd]
          constructor
          · rintro ⟨p, hp, h2, h3, h4, h5⟩
            exact ⟨p, List.mem_append_left _ hp, h2, h3, h4, h5⟩
          · rintro ⟨p, hp, h2, h3, h4, h5⟩
            rcases List.mem_append.mp hp with hp1 | hp2
            · exact ⟨p, hp1, h2, h3, h4, h5⟩
            · exfalso
              have hp3 : p = (k, v) := by simpa using hp2
              rw [hp3] at h4
              exact hdd h4
    · have ht : ¬ truthyO (gs.get (dirOf k)) = false := by simp [hb]
      refine ⟨gs.modify (dirOf k) (fun b2 => b2.setField (fileOf k) v),
        by simp [divStep, hk, ht, JVal.updateField], ?_, ?_⟩
      all_goals
        have hBself : (gs.modify (dirOf k) (fun b2 => b2.setField (fileOf k) v)).get (dirOf k) =
            some (JVal.obj (b.set (fileOf k) v)) := by
          rw [JFields.get_modify_self, hb]
          rfl
      all_goals
        have hBother : ∀ d, d ≠ dirOf k →
            (gs.modify (dirOf k) (fun b2 => b2.setField (fileOf k) v)).get d = gs.get d := by
          intro d hd
          rw [JFields.get_modify_ne _ _ _ _ (Ne.symm hd)]
      · intro d hd
        by_cases hdd : d = dirOf k
        · subst hdd
          exact Or.inr ⟨_, hBself⟩
        · rw [hBother d hdd]
          exact hwf d hd
      · intro d f w hd
        by_cases hdd : d = dirOf k
        · subst hdd
          rw [treeLookup_obj, hBself]
          simp only [Option.some_bind, getField_obj]
          by_cases hf : fileOf k = f
          · subst hf
            rw [JFields.get_set_self]
            constructor
            · intro hw
              exact ⟨(k, v), List.mem_append_right _ (by simp), by
                  simpa using hw, hk, rfl, rfl⟩
            · rintro ⟨p, hp, h2, h3, h4, h5⟩
              rcases List.mem_append.mp hp with hp1 | hp2
              · exfalso
                have hpk : p.1 = k := hinjk p hp1 h3 hk h4.symm h5.symm
                exact hknotin (List.mem_map.mpr ⟨p, hp1, hpk⟩)
              · have hp3 : p = (k, v) := by simpa using hp2
                rw [hp3] at h2
                simpa using h2
          · rw [JFields.get_set_ne _ _ _ _ hf]
            have hold : treeLookup (JVal.obj gs) (dirOf k) f = b.get f := by
              rw [treeLookup_obj, hb]
              rfl
            rw [show b.get f = treeLookup (JVal.obj gs) (dirOf k) f from hold.symm,
              hlook (dirOf k) f w hdir]
            constructor
            · rintro ⟨p, hp, h2, h3, h4, h5⟩
              exact ⟨p, List.mem_append_left _ hp, h2, h3, h4, h5⟩
            · rintro ⟨p, hp, h2, h3, h4, h5⟩
              rcases List.mem_append.mp hp with hp1 | hp2
              · exact ⟨p, hp1, h2, h3, h4, h5⟩
              · exfalso
                have hp3 : p = (k, v) := by simpa using hp2
                rw [hp3] at h5
                exact hf h5.symm
        · rw [treeLookup_obj, hBother d hdd, ← treeLookup_obj, hlook d f w hd]
          constructor
          · rintro ⟨p, hp, h2, h3, h4, h5⟩
            exact ⟨p, List.mem_append_left _ hp, h2, h3, h4, h5⟩
          · rintro ⟨p, hp, h2, h3, h4, h5⟩
            rcases List.mem_append.mp hp with hp1 | hp2
            · exact ⟨p, hp1, h2, h3, h4, h5⟩
            · exfalso
              have hp3 : p = (k, v) := by simpa using hp2
              rw [hp3] at h4
              exact hdd h4

theorem divFields_inv : ∀ (rem : JFields) (gs : JFields) (processed : List (Str × JVal)),
    ((processed ++ rem.toListF).map Prod.fst).Nodup →
    (∀ k2, k2 ∈ (processed ++ rem.toListF).map Prod.fst → k2 ≠ totalKey →
      dirOf k2 ≠ totalKey) →
    (∀ k1 ∈ (processed ++ rem.toListF).map Prod.fst,
      ∀ k2 ∈ (processed ++ rem.toListF).map Prod.fst, k1 ≠ totalKey → k2 ≠ totalKey →
      dirOf k1 = dirOf k2 → fileOf k1 = fileOf k2 → k1 = k2) →
    (∀ d, d ≠ totalKey → (gs.get d = none ∨ ∃ b, gs.get d = some (JVal.obj b))) →
    (∀ d f w, d ≠ totalKey →
      (treeLookup (JVal.obj gs) d f = some w ↔
        ∃ p, p ∈ processed ∧ p.2 = w ∧ p.1 ≠ totalKey ∧ d = dirOf p.1 ∧ f = fileOf p.1)) →
    ∃ gs2, divFields (JVal.obj gs) rem = JVal.obj gs2 ∧
      (∀ d f w, d ≠ totalKey →
        (treeLookup (JVal.obj gs2) d f = some w ↔
          ∃ p, p ∈ processed ++ rem.toListF ∧ p.2 = w ∧ p.1 ≠ totalKey ∧ d = dirOf p.1 ∧
            f = fileOf p.1))
  | JFields.nil, gs, processed => by
    intro hnodup hdirAll hinjAll hwf hlook
    refine ⟨gs, rfl, ?_⟩
    simpa [JFields.toListF] using hlook
  | JFields.cons k v rest, gs, processed => by
    intro hnodup hdirAll hinjAll hwf hlook
    simp only [JFields.toListF] at hnodup hdirAll hinjAll
    have hkmem : k ∈ (processed ++ (k, v) :: rest.toListF).map Prod.fst := by
      rw [List.map_append]
      exact List.mem_append_right _ (by simp)
    have hknotin : k ∉ processed.map Prod.fst := by
      intro hkin
      rw [List.map_append] at hnodup
      have hdisj := (List.nodup_append.mp hnodup).2.2
      exact hdisj hkin (by simp)
    have hdirk : k ≠ totalKey → dirOf k ≠ totalKey := fun hkt => hdirAll k hkmem hkt
    have hinjk : ∀ p, p ∈ processed → p.1 ≠ totalKey → k ≠ totalKey →
        dirOf p.1 = dirOf k → fileOf p.1 = fileOf k → p.1 = k := by
      intro p hp hpt hkt hdd hff
      refine hinjAll p.1 ?_ k hkmem hpt hkt hdd hff
      rw [List.map_append]
      exact List.mem_append_left _ (List.mem_map.mpr ⟨p, hp, rfl⟩)
    obtain ⟨gs1, hstep, hwf1, hlook1⟩ := divStep_inv gs k v processed hknotin hdirk hinjk
      hwf hlook
    rw [List.append_cons] at hnodup hdirAll hinjAll
    obtain ⟨gs2, hdone, hlook2⟩ := divFields_inv rest gs1 (processed ++ [(k, v)]) hnodup
      hdirAll hinjAll hwf1 hlook1
    refine ⟨gs2, ?_, ?_⟩
    · show divFields (divStep (JVal.obj gs) k v) rest = JVal.obj gs2
      rw [hstep, hdone]
    · intro d f w hd
      rw [hlook2 d f w hd]
      simp [JFields.toListF]

/-- C5 amended: for a flat summary whose keys are distinct, in which no key
other than "total" has directory part "total", and in which distinct
non-total keys never split to the same (directory, filename) pair, the built
tree never has "total" as a top-level entry, every non-total key's
FileSummary is found at the pair obtained by splitting on the last slash
(slash-free keys under the empty-string top-level key), and every tree entry
arises from exactly such a key — so each original path is reachable via
exactly one pair.  The hypotheses exclude the collisions of the
counterexample, which the claim as stated does not. -/
theorem tree_unique_pair_reachability :
    ∀ (fs : JFields),
      fs.keysOf.Nodup →
      (∀ k, k ∈ fs.keysOf → k ≠ totalKey → dirOf k ≠ totalKey) →
      (∀ k1 ∈ fs.keysOf, ∀ k2 ∈ fs.keysOf, k1 ≠ totalKey → k2 ≠ totalKey →
        dirOf k1 = dirOf k2 → fileOf k1 = fileOf k2 → k1 = k2) →
      (filesSummaryOf (dividedJsonSummary (JVal.obj fs))).getField totalKey = none ∧
      (∀ k v, (k, v) ∈ fs.toListF → k ≠ totalKey →
        treeLookup (filesSummaryOf (dividedJsonSummary (JVal.obj fs))) (dirOf k) (fileOf k) =
          some v) ∧
      (∀ d f w,
        treeLookup (filesSummaryOf (dividedJsonSummary (JVal.obj fs))) d f = some w →
        ∃ p, p ∈ fs.toListF ∧ p.2 = w ∧ p.1 ≠ totalKey ∧ d = dirOf p.1 ∧ f = fileOf p.1) := by
  intro fs hnodup hdirAll hinjAll
  have hinit : ∀ (d f : Str) (w : JVal), d ≠ totalKey →
      (treeLookup (JVal.obj JFields.nil) d f = some w ↔
        ∃ p, p ∈ ([] : List (Str × JVal)) ∧ p.2 = w ∧ p.1 ≠ totalKey ∧ d = dirOf p.1 ∧
          f = fileOf p.1) := by
    intro d f w hd
    simp [JFields.get]
  obtain ⟨gs2, hdone, hlook⟩ := divFields_inv fs JFields.nil []
    (by simpa [JFields.keysOf] using hnodup)
    (by simpa [JFields.keysOf] using hdirAll)
    (by simpa [JFields.keysOf] using hinjAll)
    (fun d hd => Or.inl (by simp [JFields.get]))
    hinit
  have hdiv : dividedJsonSummary (JVal.obj fs) = JVal.obj gs2 := by
    rw [dividedJsonSummary]
    simpa [fieldsOf] using hdone
  rw [hdiv]
  refine ⟨by simp [filesSummaryOf], ?_, ?_⟩
  · intro k v hkv hkt
    have hdir : dirOf k ≠ totalKey := hdirAll k (List.mem_map.mpr ⟨(k, v), hkv, rfl⟩) hkt
    have h1 := (hlook (dirOf k) (fileOf k) v hdir).mpr
      ⟨(k, v), by simpa using hkv, rfl, hkt, rfl, rfl⟩
    rw [filesSummaryOf, removeField_obj, treeLookup_obj,
      JFields.get_remove_ne _ _ _ (Ne.symm hdir), ← treeLookup_obj]
    exact h1
  · intro d f w hw
    by_cases hd : d = totalKey
    · exfalso
      rw [filesSummaryOf, removeField_obj, treeLookup_obj, hd,
        JFields.get_remove_self] at hw
      simp at hw
    · rw [filesSummaryOf, removeField_obj, treeLookup_obj,
        JFields.get_remove_ne _ _ _ (Ne.symm hd), ← treeLookup_obj] at hw
      have h2 := (hlook d f w hd).mp hw
      simpa using h2

/-- C5 amended witness: on the sample summary the nested file src/b.js is
found at the pair (src, b.js) and "total" is not a tree entry. -/
theorem tree_unique_pair_reachability_witness :
    treeLookup (filesSummaryOf (dividedJsonSummary (JVal.obj sampleTreeFields)))
        (dirOf (strOf "src/b.js")) (fileOf (strOf "src/b.js")) = some (JVal.num 2) ∧
    (filesSummaryOf (dividedJsonSummary (JVal.obj sampleTreeFields))).getField totalKey =
      none :=
  ⟨(tree_unique_pair_reachability sampleTreeFields (by decide) (by decide) (by decide)).2.1
      (strOf "src/b.js") (JVal.num 2) (by decide) (by decide),
   (tree_unique_pair_reachability sampleTreeFields (by decide) (by decide) (by decide)).1⟩

end GitopsCoverage
